import Mathlib

/-!
Verification of the block-buffer staging layer (`src/c++/src/BlockBuffer.cc`)
and of the zero-copy read adapter (`ZeroCopyShims.java`) against their
natural-language specification.

The C++ code is shallowly embedded: machine memory blocks become `List Nat`
byte lists, pointers into blocks become `(blockIdx, offset)` pairs, the
external memory pool becomes a per-call success oracle together with a
per-call garbage-content oracle, the output sink becomes a record of its
reported natural write size and a per-call failure oracle, and thrown
`std::logic_error` / I/O exceptions become explicit error values carried in
the results.
-/

namespace Orc

/-- The external pool allocator (`orc::MemoryPool`), modelled by its contract:
each call either returns a fresh region of the requested size holding
arbitrary bytes, or returns null.  `ok n` says whether the `n`-th allocation
call succeeds, and `garbage n i` is the `i`-th byte of the region it returns. -/
structure Pool where
  ok : Nat → Bool
  garbage : Nat → Nat → Nat

/-- `MemoryPool::malloc(sz)` at allocation-call index `callIdx`: null becomes
`none`, a fresh region becomes `some` list of `sz` arbitrary bytes. -/
def Pool.malloc (p : Pool) (callIdx sz : Nat) : Option (List Nat) :=
  if p.ok callIdx then some ((List.range sz).map (p.garbage callIdx)) else none

/-- The state of `orc::BlockBuffer`: `blocks_` (each owned region as its byte
contents), `currentSize_`, `currentCapacity_` and `blockSize_`. -/
structure BlockBuffer where
  blockSize : Nat
  blocks : List (List Nat)
  currentSize : Nat
  currentCapacity : Nat
deriving DecidableEq

/-- Errors thrown by the C++ code (`std::logic_error` / `std::out_of_range`),
tagged by their message. -/
inductive BBErr where
  | blockSizeZero
  | resizeError
  | indexOutOfRange
deriving DecidableEq

/-- The loop body of `BlockBuffer::reserve`, with explicit fuel.  `cnt` is the
index of the next pool allocation call; a failed call also consumes an index. -/
def reserveAux (pool : Pool) (newCapacity : Nat) : Nat → BlockBuffer → Nat → BlockBuffer × Nat
  | 0, bb, cnt => (bb, cnt)
  | fuel + 1, bb, cnt =>
    if bb.currentCapacity < newCapacity then
      match pool.malloc cnt bb.blockSize with
      | some newBlockPtr =>
          reserveAux pool newCapacity fuel
            { bb with blocks := bb.blocks ++ [newBlockPtr],
                      currentCapacity := bb.currentCapacity + bb.blockSize } (cnt + 1)
      | none => (bb, cnt + 1)
    else (bb, cnt)

/-- `BlockBuffer::reserve(newCapacity)`: grow one block at a time until the
capacity reaches `newCapacity` or an allocation fails.  `newCapacity` units of
fuel are enough for the while loop whenever `blockSize > 0` (each successful
iteration adds `blockSize ≥ 1` to the capacity). -/
def reserve (pool : Pool) (bb : BlockBuffer) (cnt : Nat) (newCapacity : Nat) :
    BlockBuffer × Nat :=
  reserveAux pool newCapacity newCapacity bb cnt

/-- `BlockBuffer::resize(size)`: reserve, then either commit `currentSize_` or
throw.  The mutated buffer is returned alongside the possible exception, as in
C++ the object survives the throw. -/
def resize (pool : Pool) (bb : BlockBuffer) (cnt : Nat) (size : Nat) :
    Option BBErr × BlockBuffer × Nat :=
  let r := reserve pool bb cnt size
  if r.1.currentCapacity ≥ size then
    (none, { r.1 with currentSize := size }, r.2)
  else
    (some .resizeError, r.1, r.2)

/-- Modelled from the spec: `getBlockNumber` is declared in `BlockBuffer.hh`,
which is not among the given sources; the spec fixes the block count as the
number of logically non-empty blocks, `ceil(usedSize / blockSize)`. -/
def getBlockNumber (bb : BlockBuffer) : Nat :=
  (bb.currentSize + bb.blockSize - 1) / bb.blockSize

/-- A `BlockBuffer::Block` view: the C++ `(char* data, uint64_t size)` pair
with `data = blocks_[blockIdx] + offset` rendered as indices. -/
structure Block where
  blockIdx : Nat
  offset : Nat
  size : Nat
deriving DecidableEq

/-- The view built by `BlockBuffer::getBlock` after its range check passed. -/
def getBlockUnchecked (bb : BlockBuffer) (blockIndex : Nat) : Block :=
  ⟨blockIndex, 0, min (bb.currentSize - blockIndex * bb.blockSize) bb.blockSize⟩

/-- `BlockBuffer::getBlock(blockIndex)`. -/
def getBlock (bb : BlockBuffer) (blockIndex : Nat) : Except BBErr Block :=
  if getBlockNumber bb ≤ blockIndex then .error .indexOutOfRange
  else .ok (getBlockUnchecked bb blockIndex)

/-- `BlockBuffer::getNextBlock()`.  Returns the view (or the propagated resize
error) together with the buffer state and allocation-call counter. -/
def getNextBlock (pool : Pool) (bb : BlockBuffer) (cnt : Nat) :
    Except BBErr Block × BlockBuffer × Nat :=
  if bb.currentSize < bb.currentCapacity then
    (.ok ⟨bb.currentSize / bb.blockSize, bb.currentSize % bb.blockSize,
          bb.blockSize - bb.currentSize % bb.blockSize⟩,
     { bb with currentSize := (bb.currentSize / bb.blockSize + 1) * bb.blockSize },
     cnt)
  else
    match resize pool bb cnt (bb.currentSize + bb.blockSize) with
    | (some e, bb2, cnt2) => (.error e, bb2, cnt2)
    | (none, bb2, cnt2) => (.ok ⟨bb2.blocks.length - 1, 0, bb2.blockSize⟩, bb2, cnt2)

/-- The body of the `BlockBuffer` constructor after the zero check: member
initialization followed by `reserve(blockSize_)`. -/
def initBuffer (pool : Pool) (blockSize : Nat) : BlockBuffer × Nat :=
  reserve pool ⟨blockSize, [], 0, 0⟩ 0 blockSize

/-- `BlockBuffer::BlockBuffer(pool, blockSize)`. -/
def mkBlockBuffer (pool : Pool) (blockSize : Nat) : Except BBErr (BlockBuffer × Nat) :=
  if blockSize = 0 then .error .blockSizeZero else .ok (initBuffer pool blockSize)

/-- Well-formedness of a buffer state, as maintained by the operations:
positive block size, every owned block holds exactly `blockSize` bytes,
capacity is the block count times the block size, and used never exceeds
allocated. -/
def WF (bb : BlockBuffer) : Prop :=
  0 < bb.blockSize ∧ (∀ b ∈ bb.blocks, b.length = bb.blockSize) ∧
    bb.currentCapacity = bb.blocks.length * bb.blockSize ∧
    bb.currentSize ≤ bb.currentCapacity

instance (bb : BlockBuffer) : Decidable (WF bb) := by
  unfold WF; infer_instance

/-- `(l.drop off).take len`: the bytes denoted by a pointer `base + off` and a
length, within one block. -/
def sliceOf (l : List Nat) (off len : Nat) : List Nat :=
  (l.drop off).take len

/-- `memcpy(dst + off, src, src.length)` on one contiguous region. -/
def setRange (dst : List Nat) (off : Nat) (src : List Nat) : List Nat :=
  dst.take off ++ src ++ dst.drop (off + src.length)

/-- The bytes a `Block` view denotes inside the buffer. -/
def viewBytes (bb : BlockBuffer) (v : Block) : List Nat :=
  sliceOf (bb.blocks.getD v.blockIdx []) v.offset v.size

/-- A producer writing `data` through a `Block` view returned by the buffer:
the bytes land directly in the owned block (`data.length` is the number of
bytes written at the start of the view). -/
def fillView (bb : BlockBuffer) (v : Block) (data : List Nat) : BlockBuffer :=
  { bb with blocks :=
      bb.blocks.set v.blockIdx (setRange (bb.blocks.getD v.blockIdx []) v.offset data) }

/-- Errors surfacing from `BlockBuffer::writeTo`: the thrown
`std::logic_error("Natural write size cannot be zero")`, a propagated sink
I/O exception, and a marker for the undefined behavior reached when the
scratch allocation returns null (the source passes the pool result straight
to `memcpy` with no null check). -/
inductive WriteErr where
  | naturalZero
  | sinkIOError
  | nullScratchUB
deriving DecidableEq

/-- The external output sink (`orc::OutputStream`), modelled by its contract:
the reported natural write size, and a per-call oracle saying whether the
`i`-th `write` call raises an I/O error. -/
structure SinkModel where
  naturalWriteSize : Nat
  failsOn : Nat → Bool

/-- Observable outcome of one `writeTo` call: the possible exception, the byte
ranges the sink successfully received in order, the local `ioCount` variable
at exit, whether the scratch chunk was allocated and whether it was freed, and
the metrics counter afterwards (`none` models a null metrics pointer). -/
structure WriteResult where
  error : Option WriteErr
  writes : List (List Nat)
  ioCount : Nat
  scratchAllocated : Bool
  scratchFreed : Bool
  metricsAfter : Option Nat

/-- Mutable state of the scratch-copy loop in `writeTo`'s general path:
the scratch chunk contents, `chunkOffset`, the writes issued so far,
`ioCount`, and whether a sink write has raised (unwinding the loop). -/
structure CopySt where
  chunk : List Nat
  chunkOffset : Nat
  writes : List (List Nat)
  ioCount : Nat
  failed : Bool

/-- The inner `while (blockOffset < block.size)` loop of `writeTo`'s general
path, for one block's view bytes `bdata`.  Fuel bounds the iteration count;
`bdata.length` units suffice (each iteration copies at least one byte while
`chunkOffset < chunkSize`). -/
def copyBlockAux (sink : SinkModel) (chunkSize : Nat) (bdata : List Nat) :
    Nat → Nat → CopySt → CopySt
  | 0, _, st => st
  | fuel + 1, blockOffset, st =>
    if blockOffset < bdata.length then
      let copySize := min (chunkSize - st.chunkOffset) (bdata.length - blockOffset)
      let chunk2 := setRange st.chunk st.chunkOffset (sliceOf bdata blockOffset copySize)
      let co2 := st.chunkOffset + copySize
      let bo2 := blockOffset + copySize
      if co2 ≥ chunkSize then
        if sink.failsOn st.ioCount then
          { st with chunk := chunk2, chunkOffset := co2, failed := true }
        else
          copyBlockAux sink chunkSize bdata fuel bo2
            { chunk := chunk2, chunkOffset := 0,
              writes := st.writes ++ [chunk2.take chunkSize],
              ioCount := st.ioCount + 1, failed := false }
      else
        copyBlockAux sink chunkSize bdata fuel bo2
          { st with chunk := chunk2, chunkOffset := co2 }
    else st

/-- The outer `for (i = 0; i < blockNumber; ++i)` loop of `writeTo`'s general
path over block indices; a raised sink write abandons the remaining blocks
(exception unwinding). -/
def writeChunksAux (sink : SinkModel) (chunkSize : Nat) (bb : BlockBuffer) :
    List Nat → CopySt → CopySt
  | [], st => st
  | i :: rest, st =>
    if st.failed then st
    else
      let bdata := viewBytes bb (getBlockUnchecked bb i)
      writeChunksAux sink chunkSize bb rest
        (copyBlockAux sink chunkSize bdata bdata.length 0 st)

/-- `MAX_CHUNK_SIZE = 1024 * 1024 * 1024` (1 GiB). -/
def MAX_CHUNK_SIZE : Nat := 1024 * 1024 * 1024

/-- `BlockBuffer::writeTo(output, metrics)`.  `cnt` is the pool
allocation-call counter (the scratch chunk allocation consumes one call);
`metrics` is the metrics counter value, or `none` for a null pointer. -/
def writeTo (pool : Pool) (bb : BlockBuffer) (cnt : Nat) (sink : SinkModel)
    (metrics : Option Nat) : WriteResult × Nat :=
  if bb.currentSize = 0 then
    ({ error := none, writes := [], ioCount := 0, scratchAllocated := false,
       scratchFreed := false, metricsAfter := metrics }, cnt)
  else
    let chunkSize := min sink.naturalWriteSize MAX_CHUNK_SIZE
    if chunkSize = 0 then
      ({ error := some .naturalZero, writes := [], ioCount := 0,
         scratchAllocated := false, scratchFreed := false, metricsAfter := metrics }, cnt)
    else
      let blockNumber := getBlockNumber bb
      if blockNumber = 1 ∧ bb.currentSize ≤ chunkSize then
        if sink.failsOn 0 then
          ({ error := some .sinkIOError, writes := [], ioCount := 0,
             scratchAllocated := false, scratchFreed := false, metricsAfter := metrics }, cnt)
        else
          ({ error := none, writes := [viewBytes bb (getBlockUnchecked bb 0)], ioCount := 1,
             scratchAllocated := false, scratchFreed := false,
             metricsAfter := metrics.map (· + 1) }, cnt)
      else
        match pool.malloc cnt chunkSize with
        | none =>
          ({ error := some .nullScratchUB, writes := [], ioCount := 0,
             scratchAllocated := false, scratchFreed := false, metricsAfter := metrics },
           cnt + 1)
        | some scratch =>
          let st := writeChunksAux sink chunkSize bb (List.range blockNumber)
            ⟨scratch, 0, [], 0, false⟩
          if st.failed then
            ({ error := some .sinkIOError, writes := st.writes, ioCount := st.ioCount,
               scratchAllocated := true, scratchFreed := false, metricsAfter := metrics },
             cnt + 1)
          else if st.chunkOffset ≠ 0 then
            if sink.failsOn st.ioCount then
              ({ error := some .sinkIOError, writes := st.writes, ioCount := st.ioCount,
                 scratchAllocated := true, scratchFreed := false, metricsAfter := metrics },
               cnt + 1)
            else
              ({ error := none, writes := st.writes ++ [st.chunk.take st.chunkOffset],
                 ioCount := st.ioCount + 1, scratchAllocated := true, scratchFreed := true,
                 metricsAfter := metrics.map (· + (st.ioCount + 1)) }, cnt + 1)
          else
            ({ error := none, writes := st.writes, ioCount := st.ioCount,
               scratchAllocated := true, scratchFreed := true,
               metricsAfter := metrics.map (· + st.ioCount) }, cnt + 1)

/-- A producer run: repeatedly acquire a region with `getNextBlock` and fill
it completely with the next byte list.  Returns the first propagated error (if
any), the acquired views, and the final buffer state and allocation counter. -/
def runFill (pool : Pool) :
    List (List Nat) → BlockBuffer → Nat → Option BBErr × List Block × BlockBuffer × Nat
  | [], bb, cnt => (none, [], bb, cnt)
  | d :: ds, bb, cnt =>
    match getNextBlock pool bb cnt with
    | (.error e, bb2, cnt2) => (some e, [], bb2, cnt2)
    | (.ok v, bb2, cnt2) =>
      let r := runFill pool ds (fillView bb2 v d) cnt2
      (r.1, v :: r.2.1, r.2.2)

/-- Ceiling division on naturals, `ceil(a / b)` for `b > 0`. -/
def ceilDivNat (a b : Nat) : Nat := (a + b - 1) / b

/-- Stated after the claim's words: the smallest multiple of `b` that is at
least `L` (with multiples of `b` being `0, b, 2b, ...`). -/
def smallestMultipleGE (b L : Nat) : Nat := ceilDivNat L b * b

/-- Invariant of a producer run in progress: after at least one acquisition
the buffer's blocks are exactly the filled byte lists `done`, and used size
equals capacity at the block boundary `done.length * bs`. -/
def FullState (bs : Nat) (done : List (List Nat)) (bb : BlockBuffer) : Prop :=
  bb.blockSize = bs ∧ bb.blocks = done ∧ bb.currentSize = done.length * bs ∧
    bb.currentCapacity = done.length * bs ∧ 0 < done.length

/-- State of `ZeroCopyShims.ZeroCopyAdapter`
(`src/java/shims/src/java/org/apache/orc/impl/ZeroCopyShims.java`):
`readBuffers` is the key set of the identity-keyed `IdentityHashMap` of
handed-out buffers (buffers rendered as identities `Nat`), `streamReleases`
is the ordered trace of `in.releaseBuffer` calls made on the underlying
stream, `streamClosed` records `in.close()`, and `nextId` models the fresh
identity of the next `ByteBuffer` the stream's `read` returns. -/
structure ZCState where
  readBuffers : List Nat
  streamReleases : List Nat
  streamClosed : Bool
  nextId : Nat
deriving DecidableEq

/-- `ZeroCopyAdapter.readBuffer`: read a buffer from the stream and `put` it
into the identity map (`put` adds the key if absent; value is null). -/
def readBuffer (st : ZCState) : Nat × ZCState :=
  (st.nextId,
   { st with
      readBuffers := if st.nextId ∈ st.readBuffers then st.readBuffers
                     else st.readBuffers ++ [st.nextId],
      nextId := st.nextId + 1 })

/-- The deprecated `ZeroCopyAdapter.releaseBuffer(buffer)`: releases the
buffer to the stream only — the tracking map is not touched. -/
def releaseBuffer (st : ZCState) (buffer : Nat) : ZCState :=
  { st with streamReleases := st.streamReleases ++ [buffer] }

/-- `ZeroCopyAdapter.releaseAllBuffers`: release every mapped buffer to the
stream (`forEach`), then clear the map. -/
def releaseAllBuffers (st : ZCState) : ZCState :=
  { st with streamReleases := st.streamReleases ++ st.readBuffers,
            readBuffers := [] }

/-- `ZeroCopyAdapter.close`: `releaseAllBuffers()` then close the stream. -/
def close (st : ZCState) : ZCState :=
  let st2 := releaseAllBuffers st
  { st2 with streamClosed := true }

/-- The logically used bytes of the buffer: the concatenation, in order, of
the `getBlock` views of all `getBlockNumber` logical blocks — exactly what
`writeTo` walks. -/
def usedBytes (bb : BlockBuffer) : List Nat :=
  ((List.range (getBlockNumber bb)).map
    (fun i => viewBytes bb (getBlockUnchecked bb i))).flatten

/-- Loop invariant of the scratch-copy state: no raised write, the scratch
chunk holds exactly `chunkSize` bytes, and the fill offset is strictly inside
the chunk. -/
def CopyInv (cs : Nat) (st : CopySt) : Prop :=
  st.failed = false ∧ st.chunk.length = cs ∧ st.chunkOffset < cs

/-- Relation between two copy-loop states: the writes grew by full-chunk
writes `ws` and, counting the pending scratch bytes, exactly `tail` flowed
through the chunk. -/
def CopyStep (cs : Nat) (st r : CopySt) (tail : List Nat) : Prop :=
  ∃ ws, r.writes = st.writes ++ ws ∧ (∀ w ∈ ws, w.length = cs) ∧
    r.ioCount = st.ioCount + ws.length ∧
    ws.flatten ++ r.chunk.take r.chunkOffset = st.chunk.take st.chunkOffset ++ tail

/-- Full characterization of one `reserve` run, relating the input state, the
result state `r.1` and the allocation-call counter `r.2`.  `k` is the number
of successful allocations: the capacity grew by `k` whole fresh blocks `nbs`
(allocated at the successful pool calls `cnt .. cnt+k-1`), every strictly
earlier capacity was still short of the target, and the run ended either
having met the target or at a failed pool call. -/
def ReserveOut (pool : Pool) (target : Nat) (bb : BlockBuffer) (cnt : Nat)
    (r : BlockBuffer × Nat) : Prop :=
  ∃ k nbs, r.1.blockSize = bb.blockSize ∧ r.1.currentSize = bb.currentSize ∧
    r.1.blocks = bb.blocks ++ nbs ∧ List.length nbs = k ∧
    (∀ b ∈ nbs, b.length = bb.blockSize) ∧
    (∀ j, j < k → pool.ok (cnt + j) = true) ∧
    r.1.currentCapacity = bb.currentCapacity + bb.blockSize * k ∧
    (∀ j, j < k → bb.currentCapacity + bb.blockSize * j < target) ∧
    ((r.2 = cnt + k ∧ target ≤ r.1.currentCapacity) ∨
     (r.2 = cnt + k + 1 ∧ pool.ok (cnt + k) = false ∧ r.1.currentCapacity < target))

lemma reserveOut_stop (pool : Pool) (target : Nat) (bb : BlockBuffer) (cnt : Nat)
    (h : target ≤ bb.currentCapacity) : ReserveOut pool target bb cnt (bb, cnt) :=
  ⟨0, [], rfl, rfl, (List.append_nil _).symm, rfl, (by simp),
    (fun j hj => absurd hj (Nat.not_lt_zero j)),
    (by simp), (fun j hj => absurd hj (Nat.not_lt_zero j)),
    Or.inl ⟨(Nat.add_zero cnt).symm, h⟩⟩

lemma reserveOut_failStop (pool : Pool) (target : Nat) (bb : BlockBuffer) (cnt : Nat)
    (h : bb.currentCapacity < target) (hok : pool.ok cnt = false) :
    ReserveOut pool target bb cnt (bb, cnt + 1) :=
  ⟨0, [], rfl, rfl, (List.append_nil _).symm, rfl, (by simp),
    (fun j hj => absurd hj (Nat.not_lt_zero j)),
    (by simp), (fun j hj => absurd hj (Nat.not_lt_zero j)),
    Or.inr ⟨(by omega), (by simpa using hok), h⟩⟩

lemma reserveOut_step (pool : Pool) (target : Nat) (bb : BlockBuffer) (cnt : Nat)
    (gb : List Nat) (hgb : gb.length = bb.blockSize) (hlt : bb.currentCapacity < target)
    (hok : pool.ok cnt = true) (r : BlockBuffer × Nat)
    (h : ReserveOut pool target
      { bb with blocks := bb.blocks ++ [gb],
                currentCapacity := bb.currentCapacity + bb.blockSize } (cnt + 1) r) :
    ReserveOut pool target bb cnt r := by
  obtain ⟨bs, blocks, cs, cap⟩ := bb
  obtain ⟨k, nbs, h1, h2, h3, h4, h5, h5b, h6, h7, h8⟩ := h
  dsimp only at h1 h2 h3 h5 h5b h6 h7 h8 hgb hlt ⊢
  refine ⟨k + 1, gb :: nbs, h1, h2, ?_, by simp [h4], ?_, ?_, ?_, ?_, ?_⟩
  · rw [h3]; simp
  · intro b hb
    rcases List.mem_cons.mp hb with hb | hb
    · rw [hb]; exact hgb
    · exact h5 b hb
  · intro j hj
    cases j with
    | zero => simpa using hok
    | succ j =>
      have := h5b j (by omega)
      have hsh : cnt + 1 + j = cnt + (j + 1) := by omega
      rwa [hsh] at this
  · rw [h6]; ring
  · intro j hj
    cases j with
    | zero => simpa using hlt
    | succ j =>
      have := h7 j (by omega)
      simp only [Nat.mul_succ] at this ⊢
      omega
  · rcases h8 with ⟨hc, hcap⟩ | ⟨hc, hko, hcap⟩
    · exact Or.inl ⟨by omega, hcap⟩
    · refine Or.inr ⟨by omega, ?_, hcap⟩
      have hsh : cnt + 1 + k = cnt + (k + 1) := by omega
      rwa [hsh] at hko

lemma reserveAux_spec (pool : Pool) (target : Nat) :
    ∀ (fuel : Nat) (bb : BlockBuffer) (cnt : Nat), 0 < bb.blockSize →
      target ≤ bb.currentCapacity + bb.blockSize * fuel →
      ReserveOut pool target bb cnt (reserveAux pool target fuel bb cnt) := by
  intro fuel
  induction fuel with
  | zero =>
    intro bb cnt hbs hfuel
    have hcap : target ≤ bb.currentCapacity := by simpa using hfuel
    simpa [reserveAux] using reserveOut_stop pool target bb cnt hcap
  | succ fuel ih =>
    intro bb cnt hbs hfuel
    by_cases hlt : bb.currentCapacity < target
    · by_cases hok : pool.ok cnt
      · have hstep : reserveAux pool target (fuel + 1) bb cnt =
            reserveAux pool target fuel
              { bb with blocks := bb.blocks ++ [(List.range bb.blockSize).map (pool.garbage cnt)],
                        currentCapacity := bb.currentCapacity + bb.blockSize } (cnt + 1) := by
          simp [reserveAux, hlt, Pool.malloc, hok]
        rw [hstep]
        apply reserveOut_step pool target bb cnt
          ((List.range bb.blockSize).map (pool.garbage cnt)) (by simp) hlt hok
        refine ih
          { bb with blocks := bb.blocks ++ [(List.range bb.blockSize).map (pool.garbage cnt)],
                    currentCapacity := bb.currentCapacity + bb.blockSize } (cnt + 1) hbs ?_
        simp only [Nat.mul_succ] at hfuel ⊢
        omega
      · have hstep : reserveAux pool target (fuel + 1) bb cnt = (bb, cnt + 1) := by
          simp [reserveAux, hlt, Pool.malloc, hok]
        rw [hstep]
        exact reserveOut_failStop pool target bb cnt hlt (by simpa using hok)
    · have hstep : reserveAux pool target (fuel + 1) bb cnt = (bb, cnt) := by
        simp [reserveAux, hlt]
      rw [hstep]
      exact reserveOut_stop pool target bb cnt (by omega)

lemma reserve_spec (pool : Pool) (bb : BlockBuffer) (cnt target : Nat)
    (hbs : 0 < bb.blockSize) :
    ReserveOut pool target bb cnt (reserve pool bb cnt target) := by
  apply reserveAux_spec pool target target bb cnt hbs
  have : target ≤ bb.blockSize * target := Nat.le_mul_of_pos_left target hbs
  omega

lemma BlockBuffer.eq_of_fields {a b : BlockBuffer} (h1 : a.blockSize = b.blockSize)
    (h2 : a.blocks = b.blocks) (h3 : a.currentSize = b.currentSize)
    (h4 : a.currentCapacity = b.currentCapacity) : a = b := by
  cases a; cases b; simp_all

lemma reserve_WF (pool : Pool) (bb : BlockBuffer) (cnt target : Nat) (hWF : WF bb) :
    WF (reserve pool bb cnt target).1 := by
  obtain ⟨hbs, hlen, hcap, hle⟩ := hWF
  obtain ⟨k, nbs, h1, h2, h3, h4, h5, h5b, h6, h7, h8⟩ := reserve_spec pool bb cnt target hbs
  refine ⟨by rw [h1]; exact hbs, ?_, ?_, ?_⟩
  · intro b hb
    rw [h3] at hb
    rw [h1]
    rcases List.mem_append.mp hb with hb | hb
    · exact hlen b hb
    · exact h5 b hb
  · rw [h1, h3, h6, List.length_append, h4, hcap]; ring
  · rw [h2, h6]; omega

/-- C6: `reserve(targetCapacity)` never raises: it grows the capacity by one
`blockSize` block per successful pool allocation (`k` of them here), stops
either once the capacity has reached the target or at the first pool call
returning null, and in the shortfall case leaves the capacity at the achieved
multiple of `blockSize` with `usedSize` untouched.  (In the model `reserve` is
a total function into states, with no error outcome at all.) -/
theorem C6_reserve_best_effort (pool : Pool) (bb : BlockBuffer) (cnt target : Nat)
    (hWF : WF bb) :
    ∃ k,
      (reserve pool bb cnt target).1.currentSize = bb.currentSize ∧
      (reserve pool bb cnt target).1.blockSize = bb.blockSize ∧
      (reserve pool bb cnt target).1.blocks.length = bb.blocks.length + k ∧
      (reserve pool bb cnt target).1.currentCapacity =
        bb.currentCapacity + bb.blockSize * k ∧
      (reserve pool bb cnt target).1.currentCapacity % bb.blockSize = 0 ∧
      (((reserve pool bb cnt target).2 = cnt + k ∧
          target ≤ (reserve pool bb cnt target).1.currentCapacity) ∨
        ((reserve pool bb cnt target).2 = cnt + k + 1 ∧ pool.ok (cnt + k) = false ∧
          (reserve pool bb cnt target).1.currentCapacity < target)) := by
  obtain ⟨hbs, hlen, hcap, hle⟩ := hWF
  obtain ⟨k, nbs, h1, h2, h3, h4, h5, h5b, h6, h7, h8⟩ := reserve_spec pool bb cnt target hbs
  refine ⟨k, h2, h1, ?_, h6, ?_, h8⟩
  · rw [h3, List.length_append, h4]
  · rw [h6, hcap]
    have hf : bb.blocks.length * bb.blockSize + bb.blockSize * k
        = bb.blockSize * (bb.blocks.length + k) := by ring
    rw [hf]
    exact Nat.mul_mod_right _ _

/-- Closed-form use of C6 at a concrete input: block size 64, a pool that
fails from its 15th call on, reserving 1000 from the freshly constructed
buffer stops short (at some achieved multiple of 64) without an error. -/
theorem C6_reserve_best_effort_witness :
    WF (initBuffer ⟨fun n => n < 15, fun _ _ => 0⟩ 64).1 ∧
    ∃ k,
      (reserve ⟨fun n => n < 15, fun _ _ => 0⟩ (initBuffer ⟨fun n => n < 15, fun _ _ => 0⟩ 64).1
        1 1000).1.currentSize = (initBuffer ⟨fun n => n < 15, fun _ _ => 0⟩ 64).1.currentSize ∧
      (reserve ⟨fun n => n < 15, fun _ _ => 0⟩ (initBuffer ⟨fun n => n < 15, fun _ _ => 0⟩ 64).1
        1 1000).1.blockSize = (initBuffer ⟨fun n => n < 15, fun _ _ => 0⟩ 64).1.blockSize ∧
      (reserve ⟨fun n => n < 15, fun _ _ => 0⟩ (initBuffer ⟨fun n => n < 15, fun _ _ => 0⟩ 64).1
        1 1000).1.blocks.length =
        (initBuffer ⟨fun n => n < 15, fun _ _ => 0⟩ 64).1.blocks.length + k ∧
      (reserve ⟨fun n => n < 15, fun _ _ => 0⟩ (initBuffer ⟨fun n => n < 15, fun _ _ => 0⟩ 64).1
        1 1000).1.currentCapacity =
        (initBuffer ⟨fun n => n < 15, fun _ _ => 0⟩ 64).1.currentCapacity + 64 * k ∧
      (reserve ⟨fun n => n < 15, fun _ _ => 0⟩ (initBuffer ⟨fun n => n < 15, fun _ _ => 0⟩ 64).1
        1 1000).1.currentCapacity % 64 = 0 ∧
      (((reserve ⟨fun n => n < 15, fun _ _ => 0⟩ (initBuffer ⟨fun n => n < 15, fun _ _ => 0⟩ 64).1
          1 1000).2 = 1 + k ∧
          1000 ≤ (reserve ⟨fun n => n < 15, fun _ _ => 0⟩
            (initBuffer ⟨fun n => n < 15, fun _ _ => 0⟩ 64).1 1 1000).1.currentCapacity) ∨
        ((reserve ⟨fun n => n < 15, fun _ _ => 0⟩ (initBuffer ⟨fun n => n < 15, fun _ _ => 0⟩ 64).1
          1 1000).2 = 1 + k + 1 ∧ ((fun n => decide (n < 15)) (1 + k) : Bool) = false ∧
          (reserve ⟨fun n => n < 15, fun _ _ => 0⟩
            (initBuffer ⟨fun n => n < 15, fun _ _ => 0⟩ 64).1 1 1000).1.currentCapacity < 1000)) :=
  ⟨by decide,
    C6_reserve_best_effort ⟨fun n => n < 15, fun _ _ => 0⟩
      (initBuffer ⟨fun n => n < 15, fun _ _ => 0⟩ 64).1 1 1000 (by decide)⟩

/-- C5: `resize(targetSize)` grows best-effort through `reserve`; exactly when
the achieved capacity covers the target it sets `usedSize = targetSize`,
otherwise it raises the resize logic error and leaves `usedSize` at its
pre-call value. -/
theorem C5_resize (pool : Pool) (bb : BlockBuffer) (cnt target : Nat)
    (hbs : 0 < bb.blockSize) :
    (resize pool bb cnt target).2.1.currentCapacity =
      (reserve pool bb cnt target).1.currentCapacity ∧
    ((resize pool bb cnt target).1 = none ↔
      target ≤ (resize pool bb cnt target).2.1.currentCapacity) ∧
    ((resize pool bb cnt target).1 = none →
      (resize pool bb cnt target).2.1.currentSize = target) ∧
    ((resize pool bb cnt target).1 ≠ none →
      (resize pool bb cnt target).1 = some BBErr.resizeError ∧
      (resize pool bb cnt target).2.1.currentSize = bb.currentSize) := by
  obtain ⟨k, nbs, h1, h2, h3, h4, h5, h5b, h6, h7, h8⟩ := reserve_spec pool bb cnt target hbs
  by_cases hc : (reserve pool bb cnt target).1.currentCapacity ≥ target
  · refine ⟨?_, ?_, ?_, ?_⟩ <;> simp [resize, hc]
  · refine ⟨?_, ?_, ?_, ?_⟩ <;> simp [resize, hc]
    exact h2

/-- Closed-form use of C5 at the spec's Scenario C: block size 64, a pool
able to supply only 15 blocks (capacity 960), `resize` to 1000 fails with the
resize error and leaves `usedSize` unchanged. -/
theorem C5_resize_witness :
    0 < (64 : Nat) ∧
    ((resize ⟨fun n => n < 15, fun _ _ => 0⟩ (initBuffer ⟨fun n => n < 15, fun _ _ => 0⟩ 64).1
        1 1000).1 ≠ none →
      (resize ⟨fun n => n < 15, fun _ _ => 0⟩ (initBuffer ⟨fun n => n < 15, fun _ _ => 0⟩ 64).1
        1 1000).1 = some BBErr.resizeError ∧
      (resize ⟨fun n => n < 15, fun _ _ => 0⟩ (initBuffer ⟨fun n => n < 15, fun _ _ => 0⟩ 64).1
        1 1000).2.1.currentSize =
        (initBuffer ⟨fun n => n < 15, fun _ _ => 0⟩ 64).1.currentSize) ∧
    (resize ⟨fun n => n < 15, fun _ _ => 0⟩ (initBuffer ⟨fun n => n < 15, fun _ _ => 0⟩ 64).1
        1 1000).1 = some BBErr.resizeError ∧
    (resize ⟨fun n => n < 15, fun _ _ => 0⟩ (initBuffer ⟨fun n => n < 15, fun _ _ => 0⟩ 64).1
        1 1000).2.1.currentCapacity = 960 ∧
    (resize ⟨fun n => n < 15, fun _ _ => 0⟩ (initBuffer ⟨fun n => n < 15, fun _ _ => 0⟩ 64).1
        1 1000).2.1.currentSize = 0 :=
  ⟨by decide,
    (C5_resize ⟨fun n => n < 15, fun _ _ => 0⟩ (initBuffer ⟨fun n => n < 15, fun _ _ => 0⟩ 64).1
      1 1000 (by decide)).2.2.2,
    by decide, by decide, by decide⟩

lemma getNextBlock_avail (pool : Pool) (bb : BlockBuffer) (cnt : Nat)
    (h : bb.currentSize < bb.currentCapacity) :
    getNextBlock pool bb cnt =
      (Except.ok ⟨bb.currentSize / bb.blockSize, bb.currentSize % bb.blockSize,
          bb.blockSize - bb.currentSize % bb.blockSize⟩,
       { bb with currentSize := (bb.currentSize / bb.blockSize + 1) * bb.blockSize },
       cnt) := by
  simp [getNextBlock, h]

lemma getNextBlock_grow (pool : Pool) (bb : BlockBuffer) (cnt : Nat) (hWF : WF bb)
    (hfull : bb.currentSize = bb.currentCapacity) (hok : pool.ok cnt = true) :
    ∃ gb, gb.length = bb.blockSize ∧
      getNextBlock pool bb cnt =
        (Except.ok ⟨bb.blocks.length, 0, bb.blockSize⟩,
         { blockSize := bb.blockSize, blocks := bb.blocks ++ [gb],
           currentSize := bb.currentSize + bb.blockSize,
           currentCapacity := bb.currentCapacity + bb.blockSize }, cnt + 1) := by
  obtain ⟨hbs, hlen, hcap, hle⟩ := hWF
  obtain ⟨k, nbs, h1, h2, h3, h4, h5, h5b, h6, h7, h8⟩ :=
    reserve_spec pool bb cnt (bb.currentSize + bb.blockSize) hbs
  have hk : k = 1 := by
    have hkle : k ≤ 1 := by
      by_contra hgt
      have := h7 1 (by omega)
      omega
    rcases Nat.lt_or_ge k 1 with hk0 | hk1
    · exfalso
      have hk0 : k = 0 := by omega
      subst hk0
      rcases h8 with ⟨hc, hcap2⟩ | ⟨hc, hko, hcap2⟩
      · rw [h6] at hcap2; omega
      · rw [Nat.add_zero] at hko; rw [hok] at hko; cases hko
    · omega
  subst hk
  have hnbs : ∃ gb, nbs = [gb] ∧ gb.length = bb.blockSize := by
    cases nbs with
    | nil => simp at h4
    | cons a t =>
      cases t with
      | nil => exact ⟨a, rfl, h5 a (by simp)⟩
      | cons a2 t2 => simp at h4
  obtain ⟨gb, hgbnbs, hgblen⟩ := hnbs
  refine ⟨gb, hgblen, ?_⟩
  have hcap1 : (reserve pool bb cnt (bb.currentSize + bb.blockSize)).1.currentCapacity =
      bb.currentCapacity + bb.blockSize := by rw [h6]; ring
  have hge : (reserve pool bb cnt (bb.currentSize + bb.blockSize)).1.currentCapacity ≥
      bb.currentSize + bb.blockSize := by omega
  have hresize : resize pool bb cnt (bb.currentSize + bb.blockSize) =
      (none, { (reserve pool bb cnt (bb.currentSize + bb.blockSize)).1 with
                currentSize := bb.currentSize + bb.blockSize },
       (reserve pool bb cnt (bb.currentSize + bb.blockSize)).2) := by
    simp [resize, hge]
  have hcnt : (reserve pool bb cnt (bb.currentSize + bb.blockSize)).2 = cnt + 1 := by
    rcases h8 with ⟨hc, hcap2⟩ | ⟨hc, hko, hcap2⟩
    · exact hc
    · omega
  have hnotlt : ¬ bb.currentSize < bb.currentCapacity := by omega
  have hstate : ({ (reserve pool bb cnt (bb.currentSize + bb.blockSize)).1 with
      currentSize := bb.currentSize + bb.blockSize } : BlockBuffer) =
      { blockSize := bb.blockSize, blocks := bb.blocks ++ [gb],
        currentSize := bb.currentSize + bb.blockSize,
        currentCapacity := bb.currentCapacity + bb.blockSize } := by
    apply BlockBuffer.eq_of_fields
    · simpa using h1
    · simpa using h3.trans (by rw [hgbnbs])
    · rfl
    · simpa using hcap1
  simp only [getNextBlock, hnotlt, if_false, hresize, hstate, hcnt]
  have hlen2 : (bb.blocks ++ [gb]).length - 1 = bb.blocks.length := by simp
  simp [hlen2]

lemma getNextBlock_grow_fail (pool : Pool) (bb : BlockBuffer) (cnt : Nat)
    (hbs : 0 < bb.blockSize) (hfull : bb.currentCapacity ≤ bb.currentSize)
    (hok : pool.ok cnt = false) :
    (getNextBlock pool bb cnt).1 = Except.error BBErr.resizeError := by
  obtain ⟨k, nbs, h1, h2, h3, h4, h5, h5b, h6, h7, h8⟩ :=
    reserve_spec pool bb cnt (bb.currentSize + bb.blockSize) hbs
  have hk : k = 0 := by
    by_contra hne
    have := h5b 0 (by omega)
    rw [Nat.add_zero] at this
    rw [hok] at this
    cases this
  subst hk
  have hcap1 : (reserve pool bb cnt (bb.currentSize + bb.blockSize)).1.currentCapacity =
      bb.currentCapacity := by rw [h6]; ring
  have hlt : ¬ (reserve pool bb cnt (bb.currentSize + bb.blockSize)).1.currentCapacity ≥
      bb.currentSize + bb.blockSize := by omega
  have hresize : resize pool bb cnt (bb.currentSize + bb.blockSize) =
      (some BBErr.resizeError, (reserve pool bb cnt (bb.currentSize + bb.blockSize)).1,
       (reserve pool bb cnt (bb.currentSize + bb.blockSize)).2) := by
    simp [resize, hlt]
  have hnotlt : ¬ bb.currentSize < bb.currentCapacity := by omega
  simp [getNextBlock, hnotlt, hresize]

/-- C3: when spare capacity exists, `getNextBlock()` returns the unused tail
of the current block (offset `usedSize mod blockSize`, length
`blockSize - usedSize mod blockSize`) and advances `usedSize` to the next
block boundary `(usedSize div blockSize + 1) * blockSize`; when
`usedSize = allocatedCapacity` and the pool can supply a block, it grows the
buffer by exactly one block and returns that whole new block (length
`blockSize`); in every successful case the new `usedSize` is a multiple of
`blockSize`. -/
theorem C3_getNextBlock (pool : Pool) (bb : BlockBuffer) (cnt : Nat) (hWF : WF bb) :
    (bb.currentSize < bb.currentCapacity →
      ((getNextBlock pool bb cnt).1 = Except.ok
          ⟨bb.currentSize / bb.blockSize, bb.currentSize % bb.blockSize,
            bb.blockSize - bb.currentSize % bb.blockSize⟩ ∧
        (getNextBlock pool bb cnt).2.1.currentSize =
          (bb.currentSize / bb.blockSize + 1) * bb.blockSize ∧
        (getNextBlock pool bb cnt).2.1.currentCapacity = bb.currentCapacity)) ∧
    (bb.currentSize = bb.currentCapacity → pool.ok cnt = true →
      ((getNextBlock pool bb cnt).1 = Except.ok ⟨bb.blocks.length, 0, bb.blockSize⟩ ∧
        (getNextBlock pool bb cnt).2.1.blocks.length = bb.blocks.length + 1 ∧
        (getNextBlock pool bb cnt).2.1.currentCapacity =
          bb.currentCapacity + bb.blockSize ∧
        (getNextBlock pool bb cnt).2.1.currentSize = bb.currentSize + bb.blockSize)) ∧
    (∀ v, (getNextBlock pool bb cnt).1 = Except.ok v →
      (getNextBlock pool bb cnt).2.1.currentSize % bb.blockSize = 0) := by
  obtain ⟨hbs, hlen, hcap, hle⟩ := hWF
  by_cases hlt : bb.currentSize < bb.currentCapacity
  · rw [getNextBlock_avail pool bb cnt hlt]
    refine ⟨fun _ => ⟨rfl, rfl, rfl⟩, fun heq _ => by omega, fun v _ => ?_⟩
    exact Nat.mul_mod_left _ _
  · have hfull : bb.currentSize = bb.currentCapacity := by omega
    refine ⟨fun h => absurd h hlt, fun _ hok => ?_, fun v hv => ?_⟩
    · obtain ⟨gb, hgblen, heq⟩ :=
        getNextBlock_grow pool bb cnt ⟨hbs, hlen, hcap, (by omega)⟩ hfull hok
      rw [heq]
      refine ⟨rfl, by simp, rfl, rfl⟩
    · by_cases hok : pool.ok cnt
      · obtain ⟨gb, hgblen, heq⟩ :=
          getNextBlock_grow pool bb cnt ⟨hbs, hlen, hcap, (by omega)⟩ hfull hok
        rw [heq]
        show (bb.currentSize + bb.blockSize) % bb.blockSize = 0
        rw [hfull, hcap]
        simp
      · exfalso
        have := getNextBlock_grow_fail pool bb cnt hbs (by omega) (by simpa using hok)
        rw [this] at hv
        cases hv

/-- Closed-form use of C3 at a concrete input: block size 4, buffer built
with used size 2 inside an allocated block, the returned view is the 2-byte
tail of block 0 and the used size lands on the boundary 4. -/
theorem C3_getNextBlock_witness :
    WF ⟨4, [[9, 9, 9, 9]], 2, 4⟩ ∧
    ((2 : Nat) < 4 →
      ((getNextBlock ⟨fun _ => true, fun _ _ => 0⟩ ⟨4, [[9, 9, 9, 9]], 2, 4⟩ 1).1 =
          Except.ok ⟨0, 2, 2⟩ ∧
        (getNextBlock ⟨fun _ => true, fun _ _ => 0⟩ ⟨4, [[9, 9, 9, 9]], 2, 4⟩ 1).2.1.currentSize
          = 4 ∧
        (getNextBlock ⟨fun _ => true, fun _ _ => 0⟩
          ⟨4, [[9, 9, 9, 9]], 2, 4⟩ 1).2.1.currentCapacity = 4)) :=
  ⟨by decide,
    (C3_getNextBlock ⟨fun _ => true, fun _ _ => 0⟩ ⟨4, [[9, 9, 9, 9]], 2, 4⟩ 1 (by decide)).1⟩

lemma setRange_full (gb d : List Nat) (h : d.length = gb.length) : setRange gb 0 d = d := by
  simp [setRange, h]

lemma initBuffer_spec (pool : Pool) (bs : Nat) (hbs : 0 < bs) (hok : pool.ok 0 = true) :
    ∃ gb : List Nat, gb.length = bs ∧ initBuffer pool bs = (⟨bs, [gb], 0, bs⟩, 1) := by
  obtain ⟨k, nbs, h1, h2, h3, h4, h5, h5b, h6, h7, h8⟩ :=
    reserve_spec pool ⟨bs, [], 0, 0⟩ 0 bs hbs
  have h1' : (reserve pool ⟨bs, [], 0, 0⟩ 0 bs).1.blockSize = bs := h1
  have h2' : (reserve pool ⟨bs, [], 0, 0⟩ 0 bs).1.currentSize = 0 := h2
  have h3' : (reserve pool ⟨bs, [], 0, 0⟩ 0 bs).1.blocks = nbs := h3
  have h5' : ∀ b ∈ nbs, b.length = bs := h5
  have h6' : (reserve pool ⟨bs, [], 0, 0⟩ 0 bs).1.currentCapacity = 0 + bs * k := h6
  have h7' : ∀ j, j < k → 0 + bs * j < bs := h7
  have h8' : ((reserve pool ⟨bs, [], 0, 0⟩ 0 bs).2 = 0 + k ∧
      bs ≤ (reserve pool ⟨bs, [], 0, 0⟩ 0 bs).1.currentCapacity) ∨
      ((reserve pool ⟨bs, [], 0, 0⟩ 0 bs).2 = 0 + k + 1 ∧ pool.ok (0 + k) = false ∧
        (reserve pool ⟨bs, [], 0, 0⟩ 0 bs).1.currentCapacity < bs) := h8
  have hk : k = 1 := by
    have hkle : k ≤ 1 := by
      by_contra hgt
      have := h7' 1 (by omega)
      omega
    rcases Nat.lt_or_ge k 1 with hk0 | hk1
    · exfalso
      have hk0 : k = 0 := by omega
      subst hk0
      rcases h8' with ⟨hc, hcap2⟩ | ⟨hc, hko, hcap2⟩
      · omega
      · rw [Nat.add_zero] at hko; rw [hok] at hko; cases hko
    · omega
  subst hk
  have hnbs : ∃ gb, nbs = [gb] ∧ gb.length = bs := by
    cases nbs with
    | nil => simp at h4
    | cons a t =>
      cases t with
      | nil => exact ⟨a, rfl, h5' a (by simp)⟩
      | cons a2 t2 => simp at h4
  obtain ⟨gb, hgbnbs, hgblen⟩ := hnbs
  refine ⟨gb, hgblen, ?_⟩
  show reserve pool ⟨bs, [], 0, 0⟩ 0 bs = (⟨bs, [gb], 0, bs⟩, 1)
  have hcnt : (reserve pool ⟨bs, [], 0, 0⟩ 0 bs).2 = 1 := by
    rcases h8' with ⟨hc, hcap2⟩ | ⟨hc, hko, hcap2⟩
    · omega
    · omega
  have hst : (reserve pool ⟨bs, [], 0, 0⟩ 0 bs).1 = ⟨bs, [gb], 0, bs⟩ := by
    apply BlockBuffer.eq_of_fields
    · exact h1'
    · rw [h3', hgbnbs]
    · exact h2'
    · show (reserve pool ⟨bs, [], 0, 0⟩ 0 bs).1.currentCapacity = bs
      rw [h6']; omega
  calc reserve pool ⟨bs, [], 0, 0⟩ 0 bs
      = ((reserve pool ⟨bs, [], 0, 0⟩ 0 bs).1, (reserve pool ⟨bs, [], 0, 0⟩ 0 bs).2) := rfl
    _ = (⟨bs, [gb], 0, bs⟩, 1) := by rw [hst, hcnt]

lemma runFill_cons_full (pool : Pool) (bs : Nat) (done : List (List Nat))
    (bb : BlockBuffer) (cnt : Nat) (d : List Nat) (ds : List (List Nat))
    (hbs : 0 < bs) (hdone : ∀ b ∈ done, b.length = bs) (hd : d.length = bs)
    (hfs : FullState bs done bb) (hok : pool.ok cnt = true) :
    runFill pool (d :: ds) bb cnt =
      ((runFill pool ds
          ⟨bs, done ++ [d], (done.length + 1) * bs, (done.length + 1) * bs⟩ (cnt + 1)).1,
       ⟨done.length, 0, bs⟩ ::
        (runFill pool ds
          ⟨bs, done ++ [d], (done.length + 1) * bs, (done.length + 1) * bs⟩ (cnt + 1)).2.1,
       (runFill pool ds
          ⟨bs, done ++ [d], (done.length + 1) * bs, (done.length + 1) * bs⟩ (cnt + 1)).2.2) := by
  obtain ⟨hf1, hf2, hf3, hf4, hf5⟩ := hfs
  have hWF : WF bb := by
    refine ⟨by omega, ?_, ?_, by omega⟩
    · rw [hf2, hf1]; exact hdone
    · rw [hf1, hf2, hf4]
  have hfull : bb.currentSize = bb.currentCapacity := by omega
  obtain ⟨gb, hgblen, heq⟩ := getNextBlock_grow pool bb cnt hWF hfull hok
  have hfill : fillView
      { blockSize := bb.blockSize, blocks := bb.blocks ++ [gb],
        currentSize := bb.currentSize + bb.blockSize,
        currentCapacity := bb.currentCapacity + bb.blockSize }
      ⟨bb.blocks.length, 0, bb.blockSize⟩ d =
      ⟨bs, done ++ [d], (done.length + 1) * bs, (done.length + 1) * bs⟩ := by
    apply BlockBuffer.eq_of_fields
    · exact hf1
    · show (bb.blocks ++ [gb]).set bb.blocks.length
        (setRange ((bb.blocks ++ [gb]).getD bb.blocks.length []) 0 d) = done ++ [d]
      have hgetD : (bb.blocks ++ [gb]).getD bb.blocks.length [] = gb := by
        rw [List.getD_append_right bb.blocks [gb] [] bb.blocks.length (Nat.le_refl _)]
        simp
      rw [hgetD, setRange_full gb d (by omega),
        List.set_append_right bb.blocks.length d (Nat.le_refl _)]
      simp [hf2]
    · show bb.currentSize + bb.blockSize = (done.length + 1) * bs
      rw [hf1, hf3]; ring
    · show bb.currentCapacity + bb.blockSize = (done.length + 1) * bs
      rw [hf1, hf4]; ring
  have hview : (⟨bb.blocks.length, 0, bb.blockSize⟩ : Block) = ⟨done.length, 0, bs⟩ := by
    rw [hf1, hf2]
  simp only [runFill, heq]
  rw [hfill, hview]

lemma runFill_full (pool : Pool) (bs : Nat) (hbs : 0 < bs)
    (hok : ∀ n, pool.ok n = true) :
    ∀ (ds done : List (List Nat)) (bb : BlockBuffer) (cnt : Nat),
      (∀ d ∈ ds, d.length = bs) → (∀ b ∈ done, b.length = bs) → FullState bs done bb →
      (runFill pool ds bb cnt).1 = none ∧
      ((runFill pool ds bb cnt).2.1.map Block.size) = ds.map (fun _ => bs) ∧
      FullState bs (done ++ ds) (runFill pool ds bb cnt).2.2.1 ∧
      (runFill pool ds bb cnt).2.2.2 = cnt + ds.length := by
  intro ds
  induction ds with
  | nil =>
    intro done bb cnt hds hdone hfs
    refine ⟨rfl, rfl, ?_, by simp [runFill]⟩
    simpa [runFill] using hfs
  | cons d ds ih =>
    intro done bb cnt hds hdone hfs
    have hd : d.length = bs := hds d (by simp)
    rw [runFill_cons_full pool bs done bb cnt d ds hbs hdone hd hfs (hok cnt)]
    have hdone2 : ∀ b ∈ done ++ [d], b.length = bs := by
      intro b hb
      rcases List.mem_append.mp hb with hb | hb
      · exact hdone b hb
      · rw [List.mem_singleton.mp hb]; exact hd
    have hfs2 : FullState bs (done ++ [d])
        ⟨bs, done ++ [d], (done.length + 1) * bs, (done.length + 1) * bs⟩ := by
      refine ⟨rfl, rfl, by simp, by simp, by simp⟩
    obtain ⟨ih1, ih2, ih3, ih4⟩ := ih (done ++ [d])
      ⟨bs, done ++ [d], (done.length + 1) * bs, (done.length + 1) * bs⟩ (cnt + 1)
      (fun x hx => hds x (by simp [hx])) hdone2 hfs2
    refine ⟨ih1, ?_, ?_, ?_⟩
    · simp only [List.map_cons, ih2]
    · have : done ++ d :: ds = (done ++ [d]) ++ ds := by simp
      rw [this]
      exact ih3
    · rw [ih4]; simp; omega

lemma runFill_cons_init (pool : Pool) (bs : Nat) (gb d : List Nat) (ds : List (List Nat))
    (cnt : Nat) (hbs : 0 < bs) (hgb : gb.length = bs) (hd : d.length = bs) :
    runFill pool (d :: ds) ⟨bs, [gb], 0, bs⟩ cnt =
      ((runFill pool ds ⟨bs, [d], bs, bs⟩ cnt).1,
       ⟨0, 0, bs⟩ :: (runFill pool ds ⟨bs, [d], bs, bs⟩ cnt).2.1,
       (runFill pool ds ⟨bs, [d], bs, bs⟩ cnt).2.2) := by
  have heq := getNextBlock_avail pool ⟨bs, [gb], 0, bs⟩ cnt (show (0:Nat) < bs from hbs)
  have hview : (⟨(0:Nat) / bs, (0:Nat) % bs, bs - (0:Nat) % bs⟩ : Block) = ⟨0, 0, bs⟩ := by
    simp
  have hstate : ({ (⟨bs, [gb], 0, bs⟩ : BlockBuffer) with
      currentSize := ((0:Nat) / bs + 1) * bs } : BlockBuffer) = ⟨bs, [gb], bs, bs⟩ := by
    apply BlockBuffer.eq_of_fields <;> simp
  rw [hview, hstate] at heq
  have hfill : fillView ⟨bs, [gb], bs, bs⟩ ⟨0, 0, bs⟩ d = ⟨bs, [d], bs, bs⟩ := by
    apply BlockBuffer.eq_of_fields
    · rfl
    · show ([gb].set 0 (setRange ([gb].getD 0 []) 0 d)) = [d]
      have hgetD : ([gb].getD 0 []) = gb := rfl
      rw [hgetD, setRange_full gb d (by omega)]
      rfl
    · rfl
    · rfl
  simp only [runFill, heq]
  rw [hfill]

lemma runFill_init_spec (pool : Pool) (bs : Nat) (ds : List (List Nat))
    (hbs : 0 < bs) (hok : ∀ n, pool.ok n = true) (hds : ∀ d ∈ ds, d.length = bs) :
    (runFill pool ds (initBuffer pool bs).1 (initBuffer pool bs).2).1 = none ∧
    ((runFill pool ds (initBuffer pool bs).1 (initBuffer pool bs).2).2.1.map Block.size)
      = ds.map (fun _ => bs) ∧
    (runFill pool ds (initBuffer pool bs).1 (initBuffer pool bs).2).2.2.1.blockSize = bs ∧
    (runFill pool ds (initBuffer pool bs).1 (initBuffer pool bs).2).2.2.1.currentSize
      = ds.length * bs ∧
    (ds = [] → ∃ gb, gb.length = bs ∧
      (runFill pool ds (initBuffer pool bs).1 (initBuffer pool bs).2).2.2.1.blocks = [gb] ∧
      (runFill pool ds (initBuffer pool bs).1 (initBuffer pool bs).2).2.2.1.currentCapacity
        = bs) ∧
    (ds ≠ [] →
      (runFill pool ds (initBuffer pool bs).1 (initBuffer pool bs).2).2.2.1.blocks = ds ∧
      (runFill pool ds (initBuffer pool bs).1 (initBuffer pool bs).2).2.2.1.currentCapacity
        = ds.length * bs) := by
  obtain ⟨gb, hgblen, hinit⟩ := initBuffer_spec pool bs hbs (hok 0)
  rw [hinit]
  cases ds with
  | nil =>
    refine ⟨rfl, rfl, rfl, by simp [runFill], fun _ => ⟨gb, hgblen, rfl, rfl⟩,
      fun h => absurd rfl h⟩
  | cons d rest =>
    have hd : d.length = bs := hds d (by simp)
    rw [runFill_cons_init pool bs gb d rest 1 hbs hgblen hd]
    have hfs : FullState bs [d] ⟨bs, [d], bs, bs⟩ := ⟨rfl, rfl, by simp, by simp, by simp⟩
    obtain ⟨ih1, ih2, ih3, ih4⟩ := runFill_full pool bs hbs hok rest [d] ⟨bs, [d], bs, bs⟩ 1
      (fun x hx => hds x (by simp [hx])) (by intro b hb; rw [List.mem_singleton.mp hb]; exact hd)
      hfs
    obtain ⟨hg1, hg2, hg3, hg4, hg5⟩ := ih3
    refine ⟨ih1, ?_, hg1, ?_, fun h => (List.cons_ne_nil d rest h).elim, fun _ => ⟨?_, ?_⟩⟩
    · simp only [List.map_cons, ih2]
    · rw [hg3]; simp
    · rw [hg2]; simp
    · rw [hg4]; simp

lemma smallestMultipleGE_mul (b n : Nat) (hb : 0 < b) : smallestMultipleGE b (n * b) = n * b := by
  unfold smallestMultipleGE ceilDivNat
  have hdiv : (n * b + b - 1) / b = n := by
    have h1 : n * b + b - 1 = b * n + (b - 1) := by
      have := Nat.mul_comm n b
      omega
    rw [h1, Nat.mul_add_div hb, Nat.div_eq_of_lt (by omega)]
    omega
  rw [hdiv]

/-- Characterization backing the reading of `smallestMultipleGE`: for `b > 0`
it really is the least multiple of `b` that is at least `L`. -/
lemma smallestMultipleGE_is_least (b L : Nat) (hb : 0 < b) :
    smallestMultipleGE b L % b = 0 ∧ L ≤ smallestMultipleGE b L ∧
    ∀ m, m % b = 0 → L ≤ m → smallestMultipleGE b L ≤ m := by
  unfold smallestMultipleGE ceilDivNat
  refine ⟨Nat.mul_mod_left _ _, ?_, ?_⟩
  · rcases Nat.eq_zero_or_pos L with hL | hL
    · simp [hL]
    · have h1 : L ≤ ((L + b - 1) / b) * b := by
        have h2 : L - 1 < ((L + b - 1) / b) * b := by
          have h3 : (L + b - 1) / b * b + b > L + b - 1 := Nat.lt_div_mul_add hb
          omega
        omega
      exact h1
  · intro m hm hLm
    obtain ⟨q, hq⟩ := Nat.dvd_of_mod_eq_zero hm
    subst hq
    have h4 : (L + b - 1) / b ≤ q := by
      rw [Nat.div_le_iff_le_mul_add_pred hb]
      omega
    calc (L + b - 1) / b * b ≤ q * b := Nat.mul_le_mul_right b h4
      _ = b * q := Nat.mul_comm q b

/-- C4 as literally stated fails at the empty acquisition sequence: right
after construction the capacity is one whole block (64), while the smallest
multiple of 64 that is `≥ 0` is `0`. -/
theorem C4_capacity_counterexample :
    (runFill ⟨fun _ => true, fun _ _ => 0⟩ []
        (initBuffer ⟨fun _ => true, fun _ _ => 0⟩ 64).1
        (initBuffer ⟨fun _ => true, fun _ _ => 0⟩ 64).2).2.2.1.currentCapacity ≠
      smallestMultipleGE 64
        (((runFill ⟨fun _ => true, fun _ _ => 0⟩ []
          (initBuffer ⟨fun _ => true, fun _ _ => 0⟩ 64).1
          (initBuffer ⟨fun _ => true, fun _ _ => 0⟩ 64).2).2.1.map Block.size).sum) := by
  decide

/-- C4 (amended): for every positive block size `b`, after any sequence of
`getNextBlock()` acquisitions (always-succeeding pool) whose returned view
lengths sum to `L`, the allocated capacity is `max b S` where `S` is the
smallest multiple of `b` with `S ≥ L` — i.e. the claim's value except that
the initial one-block allocation made by the constructor keeps the capacity
at least one block even when `L = 0`. -/
theorem C4_capacity (pool : Pool) (bs : Nat) (ds : List (List Nat))
    (hbs : 0 < bs) (hok : ∀ n, pool.ok n = true) (hds : ∀ d ∈ ds, d.length = bs) :
    (runFill pool ds (initBuffer pool bs).1 (initBuffer pool bs).2).1 = none ∧
    (runFill pool ds (initBuffer pool bs).1 (initBuffer pool bs).2).2.2.1.currentCapacity =
      max bs (smallestMultipleGE bs
        (((runFill pool ds (initBuffer pool bs).1
            (initBuffer pool bs).2).2.1.map Block.size).sum)) := by
  obtain ⟨h1, h2, h3, h4, h5, h6⟩ := runFill_init_spec pool bs ds hbs hok hds
  refine ⟨h1, ?_⟩
  have hsum : (((runFill pool ds (initBuffer pool bs).1
      (initBuffer pool bs).2).2.1.map Block.size).sum) = ds.length * bs := by
    rw [h2]
    rw [List.map_const']
    simp [List.sum_replicate, smul_eq_mul, Nat.mul_comm]
  rw [hsum, smallestMultipleGE_mul bs ds.length hbs]
  cases ds with
  | nil =>
    obtain ⟨gb, hgb, hblocks, hcap⟩ := h5 rfl
    rw [hcap]
    simp
  | cons d rest =>
    obtain ⟨hblocks, hcap⟩ := h6 (List.cons_ne_nil d rest)
    rw [hcap]
    have hle : bs ≤ (d :: rest).length * bs := by
      have : 1 * bs ≤ (d :: rest).length * bs :=
        Nat.mul_le_mul_right bs (by simp)
      omega
    omega

/-- Closed-form use of C4 (amended) at a concrete input: block size 4, two
full acquisitions, total acquired length 8, capacity 8 = max 4 (least
multiple of 4 at least 8). -/
theorem C4_capacity_witness :
    (0 < (4:Nat)) ∧
    ((runFill ⟨fun _ => true, fun _ _ => 0⟩ [[1,2,3,4],[5,6,7,8]]
        (initBuffer ⟨fun _ => true, fun _ _ => 0⟩ 4).1
        (initBuffer ⟨fun _ => true, fun _ _ => 0⟩ 4).2).1 = none ∧
      (runFill ⟨fun _ => true, fun _ _ => 0⟩ [[1,2,3,4],[5,6,7,8]]
        (initBuffer ⟨fun _ => true, fun _ _ => 0⟩ 4).1
        (initBuffer ⟨fun _ => true, fun _ _ => 0⟩ 4).2).2.2.1.currentCapacity =
        max 4 (smallestMultipleGE 4
          (((runFill ⟨fun _ => true, fun _ _ => 0⟩ [[1,2,3,4],[5,6,7,8]]
              (initBuffer ⟨fun _ => true, fun _ _ => 0⟩ 4).1
              (initBuffer ⟨fun _ => true, fun _ _ => 0⟩ 4).2).2.1.map Block.size).sum))) :=
  ⟨by decide,
    C4_capacity ⟨fun _ => true, fun _ _ => 0⟩ 4 [[1,2,3,4],[5,6,7,8]] (by decide)
      (fun _ => rfl) (by decide)⟩

/-- C2 evaluated at a failing input: block size 1, two filled blocks, a sink
of natural write size 1 whose first write raises.  `writeTo` takes the
general path, allocates the scratch chunk from the pool, the sink write
raises — and the error propagates with the scratch chunk NOT released
(`memoryPool_.free(chunk)` sits after the write loop with no RAII guard, so
stack unwinding skips it).  The claim that the chunk is released on every
exit path is therefore violated by the code. -/
theorem C2_scratch_not_freed_on_sink_failure :
    (writeTo ⟨fun _ => true, fun _ _ => 0⟩
        (runFill ⟨fun _ => true, fun _ _ => 0⟩ [[7],[8]]
          (initBuffer ⟨fun _ => true, fun _ _ => 0⟩ 1).1
          (initBuffer ⟨fun _ => true, fun _ _ => 0⟩ 1).2).2.2.1
        (runFill ⟨fun _ => true, fun _ _ => 0⟩ [[7],[8]]
          (initBuffer ⟨fun _ => true, fun _ _ => 0⟩ 1).1
          (initBuffer ⟨fun _ => true, fun _ _ => 0⟩ 1).2).2.2.2
        ⟨1, fun _ => true⟩ (some 0)).1.error = some WriteErr.sinkIOError ∧
    (writeTo ⟨fun _ => true, fun _ _ => 0⟩
        (runFill ⟨fun _ => true, fun _ _ => 0⟩ [[7],[8]]
          (initBuffer ⟨fun _ => true, fun _ _ => 0⟩ 1).1
          (initBuffer ⟨fun _ => true, fun _ _ => 0⟩ 1).2).2.2.1
        (runFill ⟨fun _ => true, fun _ _ => 0⟩ [[7],[8]]
          (initBuffer ⟨fun _ => true, fun _ _ => 0⟩ 1).1
          (initBuffer ⟨fun _ => true, fun _ _ => 0⟩ 1).2).2.2.2
        ⟨1, fun _ => true⟩ (some 0)).1.scratchAllocated = true ∧
    (writeTo ⟨fun _ => true, fun _ _ => 0⟩
        (runFill ⟨fun _ => true, fun _ _ => 0⟩ [[7],[8]]
          (initBuffer ⟨fun _ => true, fun _ _ => 0⟩ 1).1
          (initBuffer ⟨fun _ => true, fun _ _ => 0⟩ 1).2).2.2.1
        (runFill ⟨fun _ => true, fun _ _ => 0⟩ [[7],[8]]
          (initBuffer ⟨fun _ => true, fun _ _ => 0⟩ 1).1
          (initBuffer ⟨fun _ => true, fun _ _ => 0⟩ 1).2).2.2.2
        ⟨1, fun _ => true⟩ (some 0)).1.scratchFreed = false := by
  decide

/-- C8 as literally stated quantifies over every buffer state, but on an
empty buffer `writeTo` returns before ever reading the natural write size:
with `usedSize = 0` and a sink reporting 0, no error is raised at all. -/
theorem C8_zero_natural_counterexample :
    (writeTo ⟨fun _ => true, fun _ _ => 0⟩ (initBuffer ⟨fun _ => true, fun _ _ => 0⟩ 64).1 1
      ⟨0, fun _ => false⟩ none).1.error = none ∧
    (writeTo ⟨fun _ => true, fun _ _ => 0⟩ (initBuffer ⟨fun _ => true, fun _ _ => 0⟩ 64).1 1
      ⟨0, fun _ => false⟩ none).1.writes = [] := by
  decide

/-- C8 (amended): for every buffer with `usedSize > 0`, a sink natural write
size of 0 makes `writeTo` raise the zero-natural-write-size logic error
before any bytes are written and before any scratch allocation. -/
theorem C8_zero_natural (pool : Pool) (bb : BlockBuffer) (cnt : Nat) (sink : SinkModel)
    (metrics : Option Nat) (h0 : 0 < bb.currentSize) (hnat : sink.naturalWriteSize = 0) :
    (writeTo pool bb cnt sink metrics).1.error = some WriteErr.naturalZero ∧
    (writeTo pool bb cnt sink metrics).1.writes = [] ∧
    (writeTo pool bb cnt sink metrics).1.scratchAllocated = false ∧
    (writeTo pool bb cnt sink metrics).1.ioCount = 0 ∧
    (writeTo pool bb cnt sink metrics).1.metricsAfter = metrics := by
  have h0' : ¬ bb.currentSize = 0 := by omega
  refine ⟨?_, ?_, ?_, ?_, ?_⟩ <;> simp [writeTo, h0', hnat]

/-- Closed-form use of C8 (amended) at a concrete input: a one-byte buffer
and a sink reporting natural write size 0. -/
theorem C8_zero_natural_witness :
    (0 < (1:Nat)) ∧
    (writeTo ⟨fun _ => true, fun _ _ => 0⟩ ⟨1, [[7]], 1, 1⟩ 1
      ⟨0, fun _ => false⟩ (some 3)).1.error = some WriteErr.naturalZero ∧
    (writeTo ⟨fun _ => true, fun _ _ => 0⟩ ⟨1, [[7]], 1, 1⟩ 1
      ⟨0, fun _ => false⟩ (some 3)).1.writes = [] ∧
    (writeTo ⟨fun _ => true, fun _ _ => 0⟩ ⟨1, [[7]], 1, 1⟩ 1
      ⟨0, fun _ => false⟩ (some 3)).1.scratchAllocated = false ∧
    (writeTo ⟨fun _ => true, fun _ _ => 0⟩ ⟨1, [[7]], 1, 1⟩ 1
      ⟨0, fun _ => false⟩ (some 3)).1.ioCount = 0 ∧
    (writeTo ⟨fun _ => true, fun _ _ => 0⟩ ⟨1, [[7]], 1, 1⟩ 1
      ⟨0, fun _ => false⟩ (some 3)).1.metricsAfter = some 3 :=
  ⟨by decide,
    C8_zero_natural ⟨fun _ => true, fun _ _ => 0⟩ ⟨1, [[7]], 1, 1⟩ 1
      ⟨0, fun _ => false⟩ (some 3) (by decide) rfl⟩

/-- C9: in the general path the scratch pointer returned by the pool is used
with no null check; when the allocation fails the code runs straight into
`memcpy` on a null pointer (the model's undefined-behavior marker), and when
it succeeds that marker is unreachable — the loop is safe exactly under the
precondition that the scratch allocation succeeded. -/
theorem C9_null_scratch_unchecked (pool : Pool) (bb : BlockBuffer) (cnt : Nat)
    (sink : SinkModel) (metrics : Option Nat) (h0 : 0 < bb.currentSize)
    (hchunk : 0 < min sink.naturalWriteSize MAX_CHUNK_SIZE)
    (hgen : ¬(getBlockNumber bb = 1 ∧
      bb.currentSize ≤ min sink.naturalWriteSize MAX_CHUNK_SIZE)) :
    (pool.ok cnt = false →
      (writeTo pool bb cnt sink metrics).1.error = some WriteErr.nullScratchUB ∧
      (writeTo pool bb cnt sink metrics).1.writes = []) ∧
    (pool.ok cnt = true →
      (writeTo pool bb cnt sink metrics).1.error ≠ some WriteErr.nullScratchUB) := by
  have h0' : ¬ bb.currentSize = 0 := by omega
  have hcz : ¬ (min sink.naturalWriteSize MAX_CHUNK_SIZE = 0) := by omega
  have hgen2 : ¬(getBlockNumber bb = 1 ∧ bb.currentSize ≤ sink.naturalWriteSize ∧
      bb.currentSize ≤ MAX_CHUNK_SIZE) := by
    intro hand
    exact hgen ⟨hand.1, le_min hand.2.1 hand.2.2⟩
  constructor
  · intro hfail
    have hm : pool.malloc cnt (min sink.naturalWriteSize MAX_CHUNK_SIZE) = none := by
      simp [Pool.malloc, hfail]
    refine ⟨?_, ?_⟩ <;> simp [writeTo, h0', hcz, hgen2, hm]
  · intro hok
    have hm : pool.malloc cnt (min sink.naturalWriteSize MAX_CHUNK_SIZE) =
        some ((List.range (min sink.naturalWriteSize MAX_CHUNK_SIZE)).map
          (pool.garbage cnt)) := by
      simp [Pool.malloc, hok]
    simp only [writeTo, h0', if_false, hcz, hm]
    rw [if_neg hgen]
    split <;> try simp
    split <;> try simp
    split <;> simp

/-- Closed-form use of C9 at a concrete input: block size 1, two filled
blocks, a pool that can only serve the two construction-time allocations, so
the scratch allocation (call index 2) fails and the unguarded `memcpy` on the
null scratch pointer is reached. -/
theorem C9_null_scratch_unchecked_witness :
    (0 < (runFill ⟨fun n => n < 2, fun _ _ => 0⟩ [[7],[8]]
        (initBuffer ⟨fun n => n < 2, fun _ _ => 0⟩ 1).1
        (initBuffer ⟨fun n => n < 2, fun _ _ => 0⟩ 1).2).2.2.1.currentSize) ∧
    (((fun n => decide (n < 2)) 2 : Bool) = false →
      (writeTo ⟨fun n => n < 2, fun _ _ => 0⟩
        (runFill ⟨fun n => n < 2, fun _ _ => 0⟩ [[7],[8]]
          (initBuffer ⟨fun n => n < 2, fun _ _ => 0⟩ 1).1
          (initBuffer ⟨fun n => n < 2, fun _ _ => 0⟩ 1).2).2.2.1
        2 ⟨5, fun _ => false⟩ none).1.error = some WriteErr.nullScratchUB ∧
      (writeTo ⟨fun n => n < 2, fun _ _ => 0⟩
        (runFill ⟨fun n => n < 2, fun _ _ => 0⟩ [[7],[8]]
          (initBuffer ⟨fun n => n < 2, fun _ _ => 0⟩ 1).1
          (initBuffer ⟨fun n => n < 2, fun _ _ => 0⟩ 1).2).2.2.1
        2 ⟨5, fun _ => false⟩ none).1.writes = []) :=
  ⟨by decide,
    (C9_null_scratch_unchecked ⟨fun n => n < 2, fun _ _ => 0⟩
      (runFill ⟨fun n => n < 2, fun _ _ => 0⟩ [[7],[8]]
        (initBuffer ⟨fun n => n < 2, fun _ _ => 0⟩ 1).1
        (initBuffer ⟨fun n => n < 2, fun _ _ => 0⟩ 1).2).2.2.1
      2 ⟨5, fun _ => false⟩ none (by decide) (by decide) (by decide)).1⟩

/-- C10: a buffer returned by `readBuffer` enters the identity-keyed map and
stays there across any `releaseBuffer` calls (the deprecated path releases to
the stream without removing the map entry); `releaseAllBuffers` releases all
currently mapped buffers once each (the map is duplicate-free for fresh
identities) and empties the map; `close` performs `releaseAllBuffers` before
closing the stream — so a buffer already released via the deprecated path is
released to the stream a second time on `close`. -/
theorem C10_zerocopy_tracking (st : ZCState) (b buffer : Nat)
    (hfresh : st.nextId ∉ st.readBuffers) (hnodup : st.readBuffers.Nodup) :
    ((readBuffer st).1 ∈ (readBuffer st).2.readBuffers) ∧
    ((readBuffer st).2.readBuffers = st.readBuffers ++ [st.nextId]) ∧
    ((readBuffer st).2.readBuffers.Nodup) ∧
    ((releaseBuffer st buffer).readBuffers = st.readBuffers) ∧
    (b ∈ st.readBuffers → b ∈ (releaseBuffer st buffer).readBuffers) ∧
    ((releaseBuffer st buffer).streamReleases = st.streamReleases ++ [buffer]) ∧
    ((releaseAllBuffers st).readBuffers = []) ∧
    ((releaseAllBuffers st).streamReleases = st.streamReleases ++ st.readBuffers) ∧
    (∀ x ∈ st.readBuffers, st.readBuffers.count x = 1) ∧
    (close st = { releaseAllBuffers st with streamClosed := true }) ∧
    ((close (releaseBuffer (readBuffer st).2 (readBuffer st).1)).streamReleases =
      st.streamReleases ++ [st.nextId] ++ (st.readBuffers ++ [st.nextId])) ∧
    ((close (releaseBuffer (readBuffer st).2 (readBuffer st).1)).streamReleases.count
        st.nextId = 2 + st.streamReleases.count st.nextId) ∧
    ((close (releaseBuffer (readBuffer st).2 (readBuffer st).1)).streamClosed = true) := by
  have hmap : (readBuffer st).2.readBuffers = st.readBuffers ++ [st.nextId] := by
    simp [readBuffer, hfresh]
  refine ⟨?_, hmap, ?_, rfl, fun h => h, rfl, rfl, rfl, ?_, rfl, ?_, ?_, rfl⟩
  · rw [hmap]; simp [readBuffer]
  · rw [hmap]
    simp [List.nodup_append, hnodup, hfresh]
  · intro x hx
    exact List.count_eq_one_of_mem hnodup hx
  · show (releaseBuffer (readBuffer st).2 (readBuffer st).1).streamReleases ++
      (releaseBuffer (readBuffer st).2 (readBuffer st).1).readBuffers = _
    simp [releaseBuffer, readBuffer, hfresh]
  · show ((releaseBuffer (readBuffer st).2 (readBuffer st).1).streamReleases ++
      (releaseBuffer (readBuffer st).2 (readBuffer st).1).readBuffers).count st.nextId = _
    simp [releaseBuffer, readBuffer, hfresh, List.count_append]
    have : List.count st.nextId st.readBuffers = 0 := List.count_eq_zero.mpr hfresh
    omega

/-- Closed-form use of C10 at a concrete input: from an empty adapter, read
one buffer (identity 0), release it via the deprecated path, then close: the
stream sees identity 0 released twice. -/
theorem C10_zerocopy_tracking_witness :
    ((0:Nat) ∉ ([] : List Nat)) ∧
    ((close (releaseBuffer (readBuffer ⟨[], [], false, 0⟩).2
        (readBuffer ⟨[], [], false, 0⟩).1)).streamReleases = [0, 0]) ∧
    ((close (releaseBuffer (readBuffer ⟨[], [], false, 0⟩).2
        (readBuffer ⟨[], [], false, 0⟩).1)).streamClosed = true) := by
  have h := C10_zerocopy_tracking ⟨[], [], false, 0⟩ 0 0 (by decide) (by decide)
  exact ⟨by decide, by simpa using h.2.2.2.2.2.2.2.2.2.2.1, h.2.2.2.2.2.2.2.2.2.2.2.2⟩

lemma copyStep_trans (cs : Nat) (st r r2 : CopySt) (t1 t2 : List Nat)
    (h1 : CopyStep cs st r t1) (h2 : CopyStep cs r r2 t2) :
    CopyStep cs st r2 (t1 ++ t2) := by
  obtain ⟨ws1, ha1, ha2, ha3, ha4⟩ := h1
  obtain ⟨ws2, hb1, hb2, hb3, hb4⟩ := h2
  refine ⟨ws1 ++ ws2, ?_, ?_, ?_, ?_⟩
  · rw [hb1, ha1, List.append_assoc]
  · intro w hw
    rcases List.mem_append.mp hw with hw | hw
    · exact ha2 w hw
    · exact hb2 w hw
  · rw [hb3, ha3, List.length_append]; omega
  · calc (ws1 ++ ws2).flatten ++ r2.chunk.take r2.chunkOffset
        = ws1.flatten ++ (ws2.flatten ++ r2.chunk.take r2.chunkOffset) := by
          rw [List.flatten_append, List.append_assoc]
      _ = ws1.flatten ++ (r.chunk.take r.chunkOffset ++ t2) := by rw [hb4]
      _ = (ws1.flatten ++ r.chunk.take r.chunkOffset) ++ t2 := by rw [List.append_assoc]
      _ = (st.chunk.take st.chunkOffset ++ t1) ++ t2 := by rw [ha4]
      _ = st.chunk.take st.chunkOffset ++ (t1 ++ t2) := by rw [List.append_assoc]

lemma setRange_length (c s : List Nat) (o : Nat) (h : o + s.length ≤ c.length) :
    (setRange c o s).length = c.length := by
  simp only [setRange, List.length_append, List.length_take, List.length_drop]
  omega

lemma setRange_take (c s : List Nat) (o : Nat) (ho : o ≤ c.length) :
    (setRange c o s).take (o + s.length) = c.take o ++ s := by
  unfold setRange
  rw [List.append_assoc, List.take_append_eq_append_take]
  have h1 : (c.take o).length = o := by rw [List.length_take]; omega
  rw [h1, List.take_take]
  have h2 : min (o + s.length) o = o := by omega
  rw [h2]
  have h3 : o + s.length - o = s.length := by omega
  rw [h3, List.take_append_eq_append_take]
  simp

lemma copyBlockAux_step (sink : SinkModel) (cs : Nat) (bdata : List Nat)
    (fuel bo : Nat) (st : CopySt) (hbo : bo < bdata.length) :
    copyBlockAux sink cs bdata (fuel + 1) bo st =
      (if st.chunkOffset + min (cs - st.chunkOffset) (bdata.length - bo) ≥ cs then
        if sink.failsOn st.ioCount then
          { st with
              chunk := setRange st.chunk st.chunkOffset
                (sliceOf bdata bo (min (cs - st.chunkOffset) (bdata.length - bo))),
              chunkOffset := st.chunkOffset + min (cs - st.chunkOffset) (bdata.length - bo),
              failed := true }
        else
          copyBlockAux sink cs bdata fuel
            (bo + min (cs - st.chunkOffset) (bdata.length - bo))
            ⟨setRange st.chunk st.chunkOffset
                (sliceOf bdata bo (min (cs - st.chunkOffset) (bdata.length - bo))), 0,
              st.writes ++ [(setRange st.chunk st.chunkOffset
                (sliceOf bdata bo (min (cs - st.chunkOffset) (bdata.length - bo)))).take cs],
              st.ioCount + 1, false⟩
      else
        copyBlockAux sink cs bdata fuel
          (bo + min (cs - st.chunkOffset) (bdata.length - bo))
          { st with
              chunk := setRange st.chunk st.chunkOffset
                (sliceOf bdata bo (min (cs - st.chunkOffset) (bdata.length - bo))),
              chunkOffset :=
                st.chunkOffset + min (cs - st.chunkOffset) (bdata.length - bo) }) := by
  conv_lhs => simp only [copyBlockAux]
  rw [if_pos hbo]

lemma copyBlockAux_nostep (sink : SinkModel) (cs : Nat) (bdata : List Nat)
    (fuel bo : Nat) (st : CopySt) (hbo : ¬ bo < bdata.length) :
    copyBlockAux sink cs bdata (fuel + 1) bo st = st := by
  conv_lhs => simp only [copyBlockAux]
  rw [if_neg hbo]

lemma copyBlockAux_spec (sink : SinkModel) (cs : Nat) (hcs : 0 < cs)
    (hnf : ∀ i, sink.failsOn i = false) (bdata : List Nat) :
    ∀ (fuel bo : Nat) (st : CopySt), bdata.length ≤ bo + fuel → CopyInv cs st →
      CopyInv cs (copyBlockAux sink cs bdata fuel bo st) ∧
      CopyStep cs st (copyBlockAux sink cs bdata fuel bo st) (bdata.drop bo) := by
  intro fuel
  induction fuel with
  | zero =>
    intro bo st hle hinv
    have hnil : bdata.drop bo = [] := List.drop_eq_nil_of_le (by omega)
    rw [hnil]
    simp only [copyBlockAux]
    exact ⟨hinv, ⟨[], by simp, by simp, by simp, by simp⟩⟩
  | succ fuel ih =>
    intro bo st hle hinv
    obtain ⟨hf, hlen, hoff⟩ := hinv
    by_cases hbo : bo < bdata.length
    · rw [copyBlockAux_step sink cs bdata fuel bo st hbo]
      have hm1 : 1 ≤ min (cs - st.chunkOffset) (bdata.length - bo) := by omega
      have hmle : min (cs - st.chunkOffset) (bdata.length - bo) ≤ cs - st.chunkOffset := by
        omega
      have hslicelen :
          (sliceOf bdata bo (min (cs - st.chunkOffset) (bdata.length - bo))).length
            = min (cs - st.chunkOffset) (bdata.length - bo) := by
        simp only [sliceOf, List.length_take, List.length_drop]
        omega
      have hchunk2len : (setRange st.chunk st.chunkOffset
          (sliceOf bdata bo (min (cs - st.chunkOffset) (bdata.length - bo)))).length = cs := by
        rw [setRange_length]
        · exact hlen
        · rw [hslicelen]; omega
      have htake2 : (setRange st.chunk st.chunkOffset
          (sliceOf bdata bo (min (cs - st.chunkOffset) (bdata.length - bo)))).take
            (st.chunkOffset + min (cs - st.chunkOffset) (bdata.length - bo)) =
          st.chunk.take st.chunkOffset ++
            sliceOf bdata bo (min (cs - st.chunkOffset) (bdata.length - bo)) := by
        have h := setRange_take st.chunk
          (sliceOf bdata bo (min (cs - st.chunkOffset) (bdata.length - bo)))
          st.chunkOffset (by omega)
        rw [hslicelen] at h
        exact h
      have hsplit : sliceOf bdata bo (min (cs - st.chunkOffset) (bdata.length - bo)) ++
          bdata.drop (bo + min (cs - st.chunkOffset) (bdata.length - bo)) = bdata.drop bo := by
        have hdd : bdata.drop (bo + min (cs - st.chunkOffset) (bdata.length - bo)) =
            (bdata.drop bo).drop (min (cs - st.chunkOffset) (bdata.length - bo)) := by
          rw [List.drop_drop]
        rw [hdd]
        exact List.take_append_drop _ _
      by_cases hemit : st.chunkOffset + min (cs - st.chunkOffset) (bdata.length - bo) ≥ cs
      · rw [if_pos hemit, hnf st.ioCount, if_neg (by simp)]
        have heqcs : st.chunkOffset + min (cs - st.chunkOffset) (bdata.length - bo) = cs := by
          omega
        have htakecs : (setRange st.chunk st.chunkOffset
            (sliceOf bdata bo (min (cs - st.chunkOffset) (bdata.length - bo)))).take cs =
            st.chunk.take st.chunkOffset ++
              sliceOf bdata bo (min (cs - st.chunkOffset) (bdata.length - bo)) := by
          have h := htake2
          rw [heqcs] at h
          exact h
        have hinv2 : CopyInv cs
            ⟨setRange st.chunk st.chunkOffset
                (sliceOf bdata bo (min (cs - st.chunkOffset) (bdata.length - bo))), 0,
              st.writes ++ [(setRange st.chunk st.chunkOffset
                (sliceOf bdata bo (min (cs - st.chunkOffset) (bdata.length - bo)))).take cs],
              st.ioCount + 1, false⟩ := ⟨rfl, hchunk2len, hcs⟩
        have hstep1 : CopyStep cs st
            ⟨setRange st.chunk st.chunkOffset
                (sliceOf bdata bo (min (cs - st.chunkOffset) (bdata.length - bo))), 0,
              st.writes ++ [(setRange st.chunk st.chunkOffset
                (sliceOf bdata bo (min (cs - st.chunkOffset) (bdata.length - bo)))).take cs],
              st.ioCount + 1, false⟩
            (sliceOf bdata bo (min (cs - st.chunkOffset) (bdata.length - bo))) := by
          refine ⟨[(setRange st.chunk st.chunkOffset
              (sliceOf bdata bo (min (cs - st.chunkOffset) (bdata.length - bo)))).take cs],
            rfl, ?_, by simp, ?_⟩
          · intro w hw
            rw [List.mem_singleton.mp hw, List.length_take, hchunk2len]
            omega
          · simp only [List.take_zero, List.append_nil, List.flatten]
            rw [htakecs]
        obtain ⟨hinv3, hstep3⟩ := ih
          (bo + min (cs - st.chunkOffset) (bdata.length - bo))
          ⟨setRange st.chunk st.chunkOffset
              (sliceOf bdata bo (min (cs - st.chunkOffset) (bdata.length - bo))), 0,
            st.writes ++ [(setRange st.chunk st.chunkOffset
              (sliceOf bdata bo (min (cs - st.chunkOffset) (bdata.length - bo)))).take cs],
            st.ioCount + 1, false⟩
          (by omega) hinv2
        refine ⟨hinv3, ?_⟩
        rw [← hsplit]
        exact copyStep_trans cs st _ _ _ _ hstep1 hstep3
      · rw [if_neg hemit]
        have hinv2 : CopyInv cs
            { st with
                chunk := setRange st.chunk st.chunkOffset
                  (sliceOf bdata bo (min (cs - st.chunkOffset) (bdata.length - bo))),
                chunkOffset :=
                  st.chunkOffset + min (cs - st.chunkOffset) (bdata.length - bo) } := by
          refine ⟨hf, hchunk2len, ?_⟩
          show st.chunkOffset + min (cs - st.chunkOffset) (bdata.length - bo) < cs
          omega
        have hstep1 : CopyStep cs st
            { st with
                chunk := setRange st.chunk st.chunkOffset
                  (sliceOf bdata bo (min (cs - st.chunkOffset) (bdata.length - bo))),
                chunkOffset :=
                  st.chunkOffset + min (cs - st.chunkOffset) (bdata.length - bo) }
            (sliceOf bdata bo (min (cs - st.chunkOffset) (bdata.length - bo))) := by
          refine ⟨[], by simp, by simp, by simp, ?_⟩
          simp only [List.flatten, List.nil_append]
          exact htake2
        obtain ⟨hinv3, hstep3⟩ := ih
          (bo + min (cs - st.chunkOffset) (bdata.length - bo))
          { st with
              chunk := setRange st.chunk st.chunkOffset
                (sliceOf bdata bo (min (cs - st.chunkOffset) (bdata.length - bo))),
              chunkOffset :=
                st.chunkOffset + min (cs - st.chunkOffset) (bdata.length - bo) }
          (by omega) hinv2
        refine ⟨hinv3, ?_⟩
        rw [← hsplit]
        exact copyStep_trans cs st _ _ _ _ hstep1 hstep3
    · rw [copyBlockAux_nostep sink cs bdata fuel bo st hbo]
      have hnil : bdata.drop bo = [] := List.drop_eq_nil_of_le (by omega)
      rw [hnil]
      exact ⟨⟨hf, hlen, hoff⟩, ⟨[], by simp, by simp, by simp, by simp⟩⟩

lemma writeChunksAux_spec (sink : SinkModel) (cs : Nat) (hcs : 0 < cs)
    (hnf : ∀ i, sink.failsOn i = false) (bb : BlockBuffer) :
    ∀ (idxs : List Nat) (st : CopySt), CopyInv cs st →
      CopyInv cs (writeChunksAux sink cs bb idxs st) ∧
      CopyStep cs st (writeChunksAux sink cs bb idxs st)
        ((idxs.map (fun i => viewBytes bb (getBlockUnchecked bb i))).flatten) := by
  intro idxs
  induction idxs with
  | nil =>
    intro st hinv
    simp only [writeChunksAux, List.map_nil]
    exact ⟨hinv, ⟨[], by simp, by simp, by simp, by simp⟩⟩
  | cons i rest ih =>
    intro st hinv
    have hfst : st.failed = false := hinv.1
    have hunfold : writeChunksAux sink cs bb (i :: rest) st =
        writeChunksAux sink cs bb rest
          (copyBlockAux sink cs (viewBytes bb (getBlockUnchecked bb i))
            (viewBytes bb (getBlockUnchecked bb i)).length 0 st) := by
      simp only [writeChunksAux]
      rw [if_neg (by rw [hfst]; simp)]
    rw [hunfold]
    obtain ⟨hinv1, hstep1⟩ := copyBlockAux_spec sink cs hcs hnf
      (viewBytes bb (getBlockUnchecked bb i))
      (viewBytes bb (getBlockUnchecked bb i)).length 0 st (by omega) hinv
    obtain ⟨hinv2, hstep2⟩ := ih _ hinv1
    refine ⟨hinv2, ?_⟩
    have hflat : ((i :: rest).map (fun j => viewBytes bb (getBlockUnchecked bb j))).flatten
        = viewBytes bb (getBlockUnchecked bb i) ++
          ((rest.map (fun j => viewBytes bb (getBlockUnchecked bb j))).flatten) := by
      simp
    rw [hflat]
    have hdrop0 : (viewBytes bb (getBlockUnchecked bb i)).drop 0
        = viewBytes bb (getBlockUnchecked bb i) := List.drop_zero _
    rw [← hdrop0]
    exact copyStep_trans cs st _ _ _ _ hstep1 hstep2

lemma viewsFlatten (bs : Nat) (hbs : 0 < bs) :
    ∀ (L : List (List Nat)) (cs : Nat), (∀ b ∈ L, b.length = bs) → cs ≤ L.length * bs →
      ((List.range ((cs + bs - 1) / bs)).map
        (fun i => (L.getD i []).take (min (cs - i * bs) bs))).flatten
        = L.flatten.take cs := by
  intro L
  induction L with
  | nil =>
    intro cs hlen hle
    have hcs0 : cs = 0 := by simpa using hle
    subst hcs0
    have hq : (0 + bs - 1) / bs = 0 := Nat.div_eq_of_lt (by omega)
    rw [hq]
    simp
  | cons b L ih =>
    intro cs hlen hle
    have hb : b.length = bs := hlen b (by simp)
    rcases Nat.eq_zero_or_pos cs with hcs0 | hcs0
    · subst hcs0
      have hq : (0 + bs - 1) / bs = 0 := Nat.div_eq_of_lt (by omega)
      rw [hq]
      simp
    · by_cases hcase : cs ≤ bs
      · have hq : (cs + bs - 1) / bs = 1 := by
          have h1 : cs + bs - 1 = (cs - 1) + bs := by omega
          rw [h1, Nat.add_div_right _ hbs, Nat.div_eq_of_lt (by omega)]
        have hr1 : List.range 1 = [0] := rfl
        rw [hq, hr1]
        have hmin : min (cs - 0 * bs) bs = cs := by
          simp only [Nat.zero_mul, Nat.sub_zero]
          omega
        simp only [List.map_cons, List.map_nil, List.getD_cons_zero, hmin,
          List.flatten_cons, List.flatten_nil, List.append_nil, List.flatten]
        rw [List.take_append_eq_append_take]
        have h2 : cs - b.length = 0 := by omega
        rw [h2]
        simp
      · have hnle : bs < cs := by omega
        have hq : (cs + bs - 1) / bs = ((cs - bs) + bs - 1) / bs + 1 := by
          have h1 : cs + bs - 1 = ((cs - bs) + bs - 1) + bs := by omega
          rw [h1, Nat.add_div_right _ hbs]
        rw [hq, List.range_succ_eq_map, List.map_cons, List.map_map]
        have hf0 : (b :: L).getD 0 [] = b := rfl
        have hmin0 : min (cs - 0 * bs) bs = bs := by
          simp only [Nat.zero_mul, Nat.sub_zero]
          omega
        have hhead : ((b :: L).getD 0 []).take (min (cs - 0 * bs) bs) = b := by
          rw [hf0, hmin0, ← hb, List.take_length]
        have htail : (List.range (((cs - bs) + bs - 1) / bs)).map
            ((fun i => ((b :: L).getD i []).take (min (cs - i * bs) bs)) ∘ Nat.succ)
            = (List.range (((cs - bs) + bs - 1) / bs)).map
              (fun i => (L.getD i []).take (min ((cs - bs) - i * bs) bs)) := by
          apply List.map_congr_left
          intro i _
          simp only [Function.comp_apply]
          have hgd : (b :: L).getD (i + 1) [] = L.getD i [] := rfl
          have hsub : cs - (i + 1) * bs = (cs - bs) - i * bs := by
            have h3 : (i + 1) * bs = i * bs + bs := by ring
            omega
          rw [hgd, hsub]
        rw [List.flatten_cons, hhead, htail]
        rw [ih (cs - bs) (fun x hx => hlen x (by simp [hx])) (by
          have h4 : (b :: L).length * bs = L.length * bs + bs := by
            simp [List.length_cons]
            ring
          omega)]
        have hflat : (b :: L).flatten = b ++ L.flatten := rfl
        rw [hflat, List.take_append_eq_append_take]
        have h5 : b.take cs = b := List.take_of_length_le (by omega)
        rw [h5, hb]

lemma usedBytes_eq (bb : BlockBuffer) (hWF : WF bb) :
    usedBytes bb = bb.blocks.flatten.take bb.currentSize := by
  obtain ⟨hbs, hlen, hcap, hle⟩ := hWF
  unfold usedBytes getBlockNumber
  have hcongr : (List.range ((bb.currentSize + bb.blockSize - 1) / bb.blockSize)).map
      (fun i => viewBytes bb (getBlockUnchecked bb i)) =
      (List.range ((bb.currentSize + bb.blockSize - 1) / bb.blockSize)).map
        (fun i => (bb.blocks.getD i []).take
          (min (bb.currentSize - i * bb.blockSize) bb.blockSize)) := by
    apply List.map_congr_left
    intro i _
    simp [viewBytes, getBlockUnchecked, sliceOf]
  rw [hcongr]
  exact viewsFlatten bb.blockSize hbs bb.blocks bb.currentSize hlen (by omega)

lemma flatten_length_const (L : List (List Nat)) (c : Nat) (h : ∀ w ∈ L, w.length = c) :
    L.flatten.length = L.length * c := by
  rw [List.length_flatten, List.map_eq_replicate_iff.mpr h, List.sum_replicate, smul_eq_mul]

lemma usedBytes_length (bb : BlockBuffer) (hWF : WF bb) :
    (usedBytes bb).length = bb.currentSize := by
  rw [usedBytes_eq bb hWF, List.length_take]
  obtain ⟨hbs, hlen, hcap, hle⟩ := hWF
  have hflatlen : bb.blocks.flatten.length = bb.blocks.length * bb.blockSize :=
    flatten_length_const bb.blocks bb.blockSize hlen
  omega

lemma ceilDivNat_mul (c n : Nat) (hc : 0 < c) : ceilDivNat (n * c) c = n := by
  unfold ceilDivNat
  have h1 : n * c + c - 1 = c * n + (c - 1) := by
    have := Nat.mul_comm n c
    omega
  rw [h1, Nat.mul_add_div hc, Nat.div_eq_of_lt (by omega)]
  omega

lemma ceilDivNat_mul_add (c n r : Nat) (hc : 0 < c) (hr1 : 0 < r) (hr2 : r < c) :
    ceilDivNat (n * c + r) c = n + 1 := by
  unfold ceilDivNat
  have h1 : n * c + r + c - 1 = c * (n + 1) + (r - 1) := by
    have := Nat.mul_comm n c
    have h2 : c * (n + 1) = c * n + c := by ring
    omega
  rw [h1, Nat.mul_add_div hc, Nat.div_eq_of_lt (by omega)]

lemma ceilDivNat_eq_one (a b : Nat) (h1 : 0 < a) (h2 : a ≤ b) : ceilDivNat a b = 1 := by
  unfold ceilDivNat
  have h3 : a + b - 1 = (a - 1) + b := by omega
  rw [h3, Nat.add_div_right _ (by omega), Nat.div_eq_of_lt (by omega)]

lemma writeTo_fast_eq (pool : Pool) (bb : BlockBuffer) (cnt : Nat) (sink : SinkModel)
    (metrics : Option Nat) (h0' : ¬ bb.currentSize = 0)
    (hcz : ¬ (min sink.naturalWriteSize MAX_CHUNK_SIZE = 0))
    (hfast : getBlockNumber bb = 1 ∧
      bb.currentSize ≤ min sink.naturalWriteSize MAX_CHUNK_SIZE)
    (hnf0 : sink.failsOn 0 = false) :
    writeTo pool bb cnt sink metrics =
      ({ error := none, writes := [viewBytes bb (getBlockUnchecked bb 0)], ioCount := 1,
         scratchAllocated := false, scratchFreed := false,
         metricsAfter := metrics.map (· + 1) }, cnt) := by
  simp only [writeTo]
  rw [if_neg h0', if_neg hcz, if_pos hfast, hnf0, if_neg (by simp)]

lemma writeTo_general_eq (pool : Pool) (bb : BlockBuffer) (cnt : Nat) (sink : SinkModel)
    (metrics : Option Nat) (h0' : ¬ bb.currentSize = 0)
    (hcz : ¬ (min sink.naturalWriteSize MAX_CHUNK_SIZE = 0))
    (hfast : ¬ (getBlockNumber bb = 1 ∧
      bb.currentSize ≤ min sink.naturalWriteSize MAX_CHUNK_SIZE))
    (hok : pool.ok cnt = true) :
    writeTo pool bb cnt sink metrics =
      (if (writeChunksAux sink (min sink.naturalWriteSize MAX_CHUNK_SIZE) bb
            (List.range (getBlockNumber bb))
            ⟨(List.range (min sink.naturalWriteSize MAX_CHUNK_SIZE)).map (pool.garbage cnt),
              0, [], 0, false⟩).failed then
        ({ error := some WriteErr.sinkIOError,
           writes := (writeChunksAux sink (min sink.naturalWriteSize MAX_CHUNK_SIZE) bb
            (List.range (getBlockNumber bb))
            ⟨(List.range (min sink.naturalWriteSize MAX_CHUNK_SIZE)).map (pool.garbage cnt),
              0, [], 0, false⟩).writes,
           ioCount := (writeChunksAux sink (min sink.naturalWriteSize MAX_CHUNK_SIZE) bb
            (List.range (getBlockNumber bb))
            ⟨(List.range (min sink.naturalWriteSize MAX_CHUNK_SIZE)).map (pool.garbage cnt),
              0, [], 0, false⟩).ioCount,
           scratchAllocated := true, scratchFreed := false, metricsAfter := metrics }, cnt + 1)
      else if (writeChunksAux sink (min sink.naturalWriteSize MAX_CHUNK_SIZE) bb
            (List.range (getBlockNumber bb))
            ⟨(List.range (min sink.naturalWriteSize MAX_CHUNK_SIZE)).map (pool.garbage cnt),
              0, [], 0, false⟩).chunkOffset ≠ 0 then
        if sink.failsOn (writeChunksAux sink (min sink.naturalWriteSize MAX_CHUNK_SIZE) bb
            (List.range (getBlockNumber bb))
            ⟨(List.range (min sink.naturalWriteSize MAX_CHUNK_SIZE)).map (pool.garbage cnt),
              0, [], 0, false⟩).ioCount then
          ({ error := some WriteErr.sinkIOError,
             writes := (writeChunksAux sink (min sink.naturalWriteSize MAX_CHUNK_SIZE) bb
              (List.range (getBlockNumber bb))
              ⟨(List.range (min sink.naturalWriteSize MAX_CHUNK_SIZE)).map (pool.garbage cnt),
                0, [], 0, false⟩).writes,
             ioCount := (writeChunksAux sink (min sink.naturalWriteSize MAX_CHUNK_SIZE) bb
              (List.range (getBlockNumber bb))
              ⟨(List.range (min sink.naturalWriteSize MAX_CHUNK_SIZE)).map (pool.garbage cnt),
                0, [], 0, false⟩).ioCount,
             scratchAllocated := true, scratchFreed := false, metricsAfter := metrics },
           cnt + 1)
        else
          ({ error := none,
             writes := (writeChunksAux sink (min sink.naturalWriteSize MAX_CHUNK_SIZE) bb
              (List.range (getBlockNumber bb))
              ⟨(List.range (min sink.naturalWriteSize MAX_CHUNK_SIZE)).map (pool.garbage cnt),
                0, [], 0, false⟩).writes ++
              [(writeChunksAux sink (min sink.naturalWriteSize MAX_CHUNK_SIZE) bb
                (List.range (getBlockNumber bb))
                ⟨(List.range (min sink.naturalWriteSize MAX_CHUNK_SIZE)).map (pool.garbage cnt),
                  0, [], 0, false⟩).chunk.take
                ((writeChunksAux sink (min sink.naturalWriteSize MAX_CHUNK_SIZE) bb
                  (List.range (getBlockNumber bb))
                  ⟨(List.range (min sink.naturalWriteSize MAX_CHUNK_SIZE)).map
                    (pool.garbage cnt), 0, [], 0, false⟩).chunkOffset)],
             ioCount := (writeChunksAux sink (min sink.naturalWriteSize MAX_CHUNK_SIZE) bb
              (List.range (getBlockNumber bb))
              ⟨(List.range (min sink.naturalWriteSize MAX_CHUNK_SIZE)).map (pool.garbage cnt),
                0, [], 0, false⟩).ioCount + 1,
             scratchAllocated := true, scratchFreed := true,
             metricsAfter := metrics.map (· +
              ((writeChunksAux sink (min sink.naturalWriteSize MAX_CHUNK_SIZE) bb
                (List.range (getBlockNumber bb))
                ⟨(List.range (min sink.naturalWriteSize MAX_CHUNK_SIZE)).map
                  (pool.garbage cnt), 0, [], 0, false⟩).ioCount + 1)) }, cnt + 1)
      else
        ({ error := none,
           writes := (writeChunksAux sink (min sink.naturalWriteSize MAX_CHUNK_SIZE) bb
            (List.range (getBlockNumber bb))
            ⟨(List.range (min sink.naturalWriteSize MAX_CHUNK_SIZE)).map (pool.garbage cnt),
              0, [], 0, false⟩).writes,
           ioCount := (writeChunksAux sink (min sink.naturalWriteSize MAX_CHUNK_SIZE) bb
            (List.range (getBlockNumber bb))
            ⟨(List.range (min sink.naturalWriteSize MAX_CHUNK_SIZE)).map (pool.garbage cnt),
              0, [], 0, false⟩).ioCount,
           scratchAllocated := true, scratchFreed := true,
           metricsAfter := metrics.map (· +
            (writeChunksAux sink (min sink.naturalWriteSize MAX_CHUNK_SIZE) bb
              (List.range (getBlockNumber bb))
              ⟨(List.range (min sink.naturalWriteSize MAX_CHUNK_SIZE)).map (pool.garbage cnt),
                0, [], 0, false⟩).ioCount) }, cnt + 1)) := by
  have hm : pool.malloc cnt (min sink.naturalWriteSize MAX_CHUNK_SIZE) =
      some ((List.range (min sink.naturalWriteSize MAX_CHUNK_SIZE)).map (pool.garbage cnt)) := by
    simp [Pool.malloc, hok]
  simp only [writeTo]
  rw [if_neg h0', if_neg hcz, if_neg hfast, hm]

lemma writeTo_spec (pool : Pool) (bb : BlockBuffer) (cnt : Nat) (sink : SinkModel)
    (metrics : Option Nat) (hWF : WF bb) (h0 : 0 < bb.currentSize)
    (hnf : ∀ i, sink.failsOn i = false) (hok : pool.ok cnt = true)
    (hnat : 0 < sink.naturalWriteSize) :
    (writeTo pool bb cnt sink metrics).1.error = none ∧
    (writeTo pool bb cnt sink metrics).1.writes.flatten =
      bb.blocks.flatten.take bb.currentSize ∧
    (writeTo pool bb cnt sink metrics).1.ioCount =
      ceilDivNat bb.currentSize (min sink.naturalWriteSize MAX_CHUNK_SIZE) ∧
    (writeTo pool bb cnt sink metrics).1.writes.map List.length =
      List.replicate ((writeTo pool bb cnt sink metrics).1.ioCount - 1)
        (min sink.naturalWriteSize MAX_CHUNK_SIZE) ++
      [bb.currentSize - ((writeTo pool bb cnt sink metrics).1.ioCount - 1) *
        (min sink.naturalWriteSize MAX_CHUNK_SIZE)] ∧
    (writeTo pool bb cnt sink metrics).1.metricsAfter =
      metrics.map (· + (writeTo pool bb cnt sink metrics).1.ioCount) := by
  have hMAX : 0 < MAX_CHUNK_SIZE := by norm_num [MAX_CHUNK_SIZE]
  have hcs : 0 < min sink.naturalWriteSize MAX_CHUNK_SIZE := by omega
  have h0' : ¬ bb.currentSize = 0 := by omega
  have hcz : ¬ (min sink.naturalWriteSize MAX_CHUNK_SIZE = 0) := by omega
  have hused := usedBytes_eq bb hWF
  have hulen := usedBytes_length bb hWF
  have htail : ((List.range (getBlockNumber bb)).map
      (fun i => viewBytes bb (getBlockUnchecked bb i))).flatten =
      bb.blocks.flatten.take bb.currentSize := by
    unfold usedBytes at hused
    exact hused
  have htaillen : (((List.range (getBlockNumber bb)).map
      (fun i => viewBytes bb (getBlockUnchecked bb i))).flatten).length =
      bb.currentSize := by
    unfold usedBytes at hulen
    exact hulen
  by_cases hfast : getBlockNumber bb = 1 ∧
      bb.currentSize ≤ min sink.naturalWriteSize MAX_CHUNK_SIZE
  · rw [writeTo_fast_eq pool bb cnt sink metrics h0' hcz hfast (hnf 0)]
    have hr1 : List.range 1 = [0] := rfl
    have hused1 : viewBytes bb (getBlockUnchecked bb 0) =
        bb.blocks.flatten.take bb.currentSize := by
      rw [← htail, hfast.1, hr1]
      simp
    have hvlen : (viewBytes bb (getBlockUnchecked bb 0)).length = bb.currentSize := by
      rw [hused1, ← hused]
      exact hulen
    refine ⟨rfl, ?_, ?_, ?_, rfl⟩
    · simp only [List.flatten_cons, List.flatten_nil, List.append_nil]
      exact hused1
    · show (1:Nat) = ceilDivNat bb.currentSize (min sink.naturalWriteSize MAX_CHUNK_SIZE)
      rw [ceilDivNat_eq_one bb.currentSize _ h0 hfast.2]
    · simp only [List.map_cons, List.map_nil, hvlen]
      show [bb.currentSize] = List.replicate (1 - 1) _ ++ [bb.currentSize - (1 - 1) * _]
      simp
  · rw [writeTo_general_eq pool bb cnt sink metrics h0' hcz hfast hok]
    have hspec := writeChunksAux_spec sink (min sink.naturalWriteSize MAX_CHUNK_SIZE)
      hcs hnf bb (List.range (getBlockNumber bb))
      ⟨(List.range (min sink.naturalWriteSize MAX_CHUNK_SIZE)).map (pool.garbage cnt),
        0, [], 0, false⟩ ⟨rfl, by simp, hcs⟩
    set stF := writeChunksAux sink (min sink.naturalWriteSize MAX_CHUNK_SIZE) bb
      (List.range (getBlockNumber bb))
      ⟨(List.range (min sink.naturalWriteSize MAX_CHUNK_SIZE)).map (pool.garbage cnt),
        0, [], 0, false⟩ with hstF
    obtain ⟨⟨hfF, hlenF, hoffF⟩, ws, hw1, hw2, hw3, hw4⟩ := hspec
    simp only [List.nil_append] at hw1
    simp only [Nat.zero_add] at hw3
    simp only [List.take_zero, List.nil_append] at hw4
    rw [htail] at hw4
    have hwsflatlen : ws.flatten.length =
        ws.length * (min sink.naturalWriteSize MAX_CHUNK_SIZE) :=
      flatten_length_const ws _ hw2
    have hulen2 : (bb.blocks.flatten.take bb.currentSize).length = bb.currentSize := by
      rw [← hused]
      exact hulen
    rw [if_neg (by rw [hfF]; simp)]
    by_cases hco : stF.chunkOffset = 0
    · rw [if_neg (by simpa using hco)]
      rw [hco, List.take_zero, List.append_nil] at hw4
      have hn1 : 1 ≤ ws.length := by
        by_contra hn0
        have hws0 : ws = [] := List.length_eq_zero.mp (by omega)
        rw [hws0] at hw4
        have := hulen2
        rw [← hw4] at this
        simp at this
        omega
      have hsz : bb.currentSize = ws.length * (min sink.naturalWriteSize MAX_CHUNK_SIZE) := by
        rw [← hulen2, ← hw4]
        exact hwsflatlen
      refine ⟨rfl, ?_, ?_, ?_, rfl⟩
      · show stF.writes.flatten = _
        rw [hw1, hw4]
      · show stF.ioCount = _
        rw [hw3, hsz, ceilDivNat_mul _ _ hcs]
      · show stF.writes.map List.length = List.replicate (stF.ioCount - 1) _ ++
          [bb.currentSize - (stF.ioCount - 1) * _]
        rw [hw1, hw3, List.map_eq_replicate_iff.mpr hw2]
        have h8 : ws.length - 1 + 1 = ws.length := by omega
        have h7 : (ws.length - 1) * (min sink.naturalWriteSize MAX_CHUNK_SIZE) +
            (min sink.naturalWriteSize MAX_CHUNK_SIZE) =
            ws.length * (min sink.naturalWriteSize MAX_CHUNK_SIZE) := by
          calc (ws.length - 1) * (min sink.naturalWriteSize MAX_CHUNK_SIZE) +
              (min sink.naturalWriteSize MAX_CHUNK_SIZE)
              = (ws.length - 1 + 1) * (min sink.naturalWriteSize MAX_CHUNK_SIZE) := by ring
            _ = ws.length * (min sink.naturalWriteSize MAX_CHUNK_SIZE) := by rw [h8]
        have h9 : bb.currentSize - (ws.length - 1) *
            (min sink.naturalWriteSize MAX_CHUNK_SIZE) =
            min sink.naturalWriteSize MAX_CHUNK_SIZE := by omega
        rw [h9]
        conv_lhs => rw [show ws.length = (ws.length - 1) + 1 from h8.symm,
          List.replicate_succ']
    · rw [if_pos (by simpa using hco), hnf stF.ioCount, if_neg (by simp)]
      have hcolen : (stF.chunk.take stF.chunkOffset).length = stF.chunkOffset := by
        rw [List.length_take, hlenF]
        omega
      have hsz : bb.currentSize = ws.length * (min sink.naturalWriteSize MAX_CHUNK_SIZE) +
          stF.chunkOffset := by
        rw [← hulen2, ← hw4, List.length_append, hwsflatlen, hcolen]
      refine ⟨rfl, ?_, ?_, ?_, rfl⟩
      · show (stF.writes ++ [stF.chunk.take stF.chunkOffset]).flatten = _
        rw [hw1, List.flatten_append]
        simp only [List.flatten_cons, List.flatten_nil, List.append_nil]
        rw [hw4]
      · show stF.ioCount + 1 = _
        rw [hw3, hsz, ceilDivNat_mul_add _ _ _ hcs (by omega) hoffF]
      · show (stF.writes ++ [stF.chunk.take stF.chunkOffset]).map List.length =
          List.replicate (stF.ioCount + 1 - 1) _ ++
            [bb.currentSize - (stF.ioCount + 1 - 1) * _]
        rw [hw1, hw3, List.map_append, List.map_eq_replicate_iff.mpr hw2]
        simp only [List.map_cons, List.map_nil, hcolen, Nat.add_sub_cancel]
        have h9 : bb.currentSize - ws.length * (min sink.naturalWriteSize MAX_CHUNK_SIZE) =
            stF.chunkOffset := by omega
        rw [h9]

/-- C7: for every non-empty well-formed buffer flushed through a
never-failing sink with positive natural write size and a pool able to serve
the scratch allocation, `writeTo` issues exactly
`ceil(usedSize / chunkSize)` sink writes with
`chunkSize = min(naturalWriteSize, 1 GiB)`; every write except the last
carries exactly `chunkSize` bytes and the last carries the remainder, the
total delivered equals `usedSize`, and that operation count is what is added
to the metrics counter when one is supplied. -/
theorem C7_write_chunking (pool : Pool) (bb : BlockBuffer) (cnt : Nat) (sink : SinkModel)
    (metrics : Option Nat) (hWF : WF bb) (h0 : 0 < bb.currentSize)
    (hnf : ∀ i, sink.failsOn i = false) (hok : pool.ok cnt = true)
    (hnat : 0 < sink.naturalWriteSize) :
    (writeTo pool bb cnt sink metrics).1.error = none ∧
    (writeTo pool bb cnt sink metrics).1.ioCount =
      ceilDivNat bb.currentSize (min sink.naturalWriteSize MAX_CHUNK_SIZE) ∧
    (writeTo pool bb cnt sink metrics).1.writes.map List.length =
      List.replicate ((writeTo pool bb cnt sink metrics).1.ioCount - 1)
        (min sink.naturalWriteSize MAX_CHUNK_SIZE) ++
      [bb.currentSize - ((writeTo pool bb cnt sink metrics).1.ioCount - 1) *
        (min sink.naturalWriteSize MAX_CHUNK_SIZE)] ∧
    (writeTo pool bb cnt sink metrics).1.writes.flatten.length = bb.currentSize ∧
    (writeTo pool bb cnt sink metrics).1.metricsAfter =
      metrics.map (· + (writeTo pool bb cnt sink metrics).1.ioCount) := by
  obtain ⟨h1, h2, h3, h4, h5⟩ := writeTo_spec pool bb cnt sink metrics hWF h0 hnf hok hnat
  refine ⟨h1, h3, h4, ?_, h5⟩
  rw [h2, List.length_take]
  obtain ⟨hbs, hlen, hcap, hle⟩ := hWF
  have hfl := flatten_length_const bb.blocks bb.blockSize hlen
  omega

/-- C1: a producer that fills regions acquired with `getNextBlock()` and
then flushes with `writeTo` to a recording sink gets back, in order, exactly
the bytes it wrote — for every positive block size and every positive sink
natural write size, covering both the single-block fast path and the
scratch-copy general path. -/
theorem C1_round_trip (pool : Pool) (bs : Nat) (ds : List (List Nat)) (sinkNatural : Nat)
    (metrics : Option Nat) (hbs : 0 < bs) (hok : ∀ n, pool.ok n = true)
    (hds : ∀ d ∈ ds, d.length = bs) (hnat : 0 < sinkNatural) :
    (runFill pool ds (initBuffer pool bs).1 (initBuffer pool bs).2).1 = none ∧
    (writeTo pool (runFill pool ds (initBuffer pool bs).1 (initBuffer pool bs).2).2.2.1
      (runFill pool ds (initBuffer pool bs).1 (initBuffer pool bs).2).2.2.2
      ⟨sinkNatural, fun _ => false⟩ metrics).1.error = none ∧
    (writeTo pool (runFill pool ds (initBuffer pool bs).1 (initBuffer pool bs).2).2.2.1
      (runFill pool ds (initBuffer pool bs).1 (initBuffer pool bs).2).2.2.2
      ⟨sinkNatural, fun _ => false⟩ metrics).1.writes.flatten = ds.flatten := by
  obtain ⟨h1, h2, h3, h4, h5, h6⟩ := runFill_init_spec pool bs ds hbs hok hds
  refine ⟨h1, ?_⟩
  cases ds with
  | nil =>
    have hz : (runFill pool [] (initBuffer pool bs).1
        (initBuffer pool bs).2).2.2.1.currentSize = 0 := by simpa using h4
    constructor
    · simp [writeTo, hz]
    · simp [writeTo, hz]
  | cons d rest =>
    obtain ⟨hblocks, hcap⟩ := h6 (List.cons_ne_nil d rest)
    have hWFB : WF (runFill pool (d :: rest) (initBuffer pool bs).1
        (initBuffer pool bs).2).2.2.1 := by
      refine ⟨by rw [h3]; exact hbs, ?_, ?_, ?_⟩
      · rw [hblocks, h3]; exact hds
      · rw [hcap, h3, hblocks]
      · rw [h4, hcap]
    have h0B : 0 < (runFill pool (d :: rest) (initBuffer pool bs).1
        (initBuffer pool bs).2).2.2.1.currentSize := by
      rw [h4]
      exact Nat.mul_pos (by simp) hbs
    obtain ⟨w1, w2, w3, w4, w5⟩ := writeTo_spec pool
      (runFill pool (d :: rest) (initBuffer pool bs).1 (initBuffer pool bs).2).2.2.1
      (runFill pool (d :: rest) (initBuffer pool bs).1 (initBuffer pool bs).2).2.2.2
      ⟨sinkNatural, fun _ => false⟩ metrics hWFB h0B (fun i => rfl) (hok _) hnat
    refine ⟨w1, ?_⟩
    rw [w2, hblocks, h4]
    have hfl : ((d :: rest).flatten).length = (d :: rest).length * bs :=
      flatten_length_const _ _ hds
    exact List.take_of_length_le (by omega)

set_option maxRecDepth 100000 in
/-- Closed-form use of C1 at a concrete input exercising the general path:
block size 2, three filled acquisitions, sink natural write size 3 — the
recording sink receives exactly the six bytes written, in order. -/
theorem C1_round_trip_witness :
    (0 < (2:Nat)) ∧ (0 < (3:Nat)) ∧
    ((runFill ⟨fun _ => true, fun _ _ => 9⟩ [[1,2],[3,4],[5,6]]
        (initBuffer ⟨fun _ => true, fun _ _ => 9⟩ 2).1
        (initBuffer ⟨fun _ => true, fun _ _ => 9⟩ 2).2).1 = none ∧
      (writeTo ⟨fun _ => true, fun _ _ => 9⟩
        (runFill ⟨fun _ => true, fun _ _ => 9⟩ [[1,2],[3,4],[5,6]]
          (initBuffer ⟨fun _ => true, fun _ _ => 9⟩ 2).1
          (initBuffer ⟨fun _ => true, fun _ _ => 9⟩ 2).2).2.2.1
        (runFill ⟨fun _ => true, fun _ _ => 9⟩ [[1,2],[3,4],[5,6]]
          (initBuffer ⟨fun _ => true, fun _ _ => 9⟩ 2).1
          (initBuffer ⟨fun _ => true, fun _ _ => 9⟩ 2).2).2.2.2
        ⟨3, fun _ => false⟩ none).1.error = none ∧
      (writeTo ⟨fun _ => true, fun _ _ => 9⟩
        (runFill ⟨fun _ => true, fun _ _ => 9⟩ [[1,2],[3,4],[5,6]]
          (initBuffer ⟨fun _ => true, fun _ _ => 9⟩ 2).1
          (initBuffer ⟨fun _ => true, fun _ _ => 9⟩ 2).2).2.2.1
        (runFill ⟨fun _ => true, fun _ _ => 9⟩ [[1,2],[3,4],[5,6]]
          (initBuffer ⟨fun _ => true, fun _ _ => 9⟩ 2).1
          (initBuffer ⟨fun _ => true, fun _ _ => 9⟩ 2).2).2.2.2
        ⟨3, fun _ => false⟩ none).1.writes.flatten =
        ([[1,2],[3,4],[5,6]] : List (List Nat)).flatten) :=
  ⟨by decide, by decide,
    C1_round_trip ⟨fun _ => true, fun _ _ => 9⟩ 2 [[1,2],[3,4],[5,6]] 3 none
      (by decide) (fun _ => rfl) (by decide) (by decide)⟩

set_option maxRecDepth 100000 in
/-- Closed-form use of C7 at the spec's Scenario B: block size 64, three
fully filled acquisitions (192 bytes), natural write size 100 — two I/O
operations of 100 and 92 bytes, 192 bytes total, count 2 added to metrics. -/
theorem C7_write_chunking_witness :
    WF (runFill ⟨fun _ => true, fun _ _ => 0⟩
      [List.range 64, (List.range 64).map (· + 64), (List.range 64).map (· + 128)]
      (initBuffer ⟨fun _ => true, fun _ _ => 0⟩ 64).1
      (initBuffer ⟨fun _ => true, fun _ _ => 0⟩ 64).2).2.2.1 ∧
    ((writeTo ⟨fun _ => true, fun _ _ => 0⟩
        (runFill ⟨fun _ => true, fun _ _ => 0⟩
          [List.range 64, (List.range 64).map (· + 64), (List.range 64).map (· + 128)]
          (initBuffer ⟨fun _ => true, fun _ _ => 0⟩ 64).1
          (initBuffer ⟨fun _ => true, fun _ _ => 0⟩ 64).2).2.2.1
        (runFill ⟨fun _ => true, fun _ _ => 0⟩
          [List.range 64, (List.range 64).map (· + 64), (List.range 64).map (· + 128)]
          (initBuffer ⟨fun _ => true, fun _ _ => 0⟩ 64).1
          (initBuffer ⟨fun _ => true, fun _ _ => 0⟩ 64).2).2.2.2
        ⟨100, fun _ => false⟩ (some 0)).1.error = none ∧
      (writeTo ⟨fun _ => true, fun _ _ => 0⟩
        (runFill ⟨fun _ => true, fun _ _ => 0⟩
          [List.range 64, (List.range 64).map (· + 64), (List.range 64).map (· + 128)]
          (initBuffer ⟨fun _ => true, fun _ _ => 0⟩ 64).1
          (initBuffer ⟨fun _ => true, fun _ _ => 0⟩ 64).2).2.2.1
        (runFill ⟨fun _ => true, fun _ _ => 0⟩
          [List.range 64, (List.range 64).map (· + 64), (List.range 64).map (· + 128)]
          (initBuffer ⟨fun _ => true, fun _ _ => 0⟩ 64).1
          (initBuffer ⟨fun _ => true, fun _ _ => 0⟩ 64).2).2.2.2
        ⟨100, fun _ => false⟩ (some 0)).1.ioCount = 2 ∧
      (writeTo ⟨fun _ => true, fun _ _ => 0⟩
        (runFill ⟨fun _ => true, fun _ _ => 0⟩
          [List.range 64, (List.range 64).map (· + 64), (List.range 64).map (· + 128)]
          (initBuffer ⟨fun _ => true, fun _ _ => 0⟩ 64).1
          (initBuffer ⟨fun _ => true, fun _ _ => 0⟩ 64).2).2.2.1
        (runFill ⟨fun _ => true, fun _ _ => 0⟩
          [List.range 64, (List.range 64).map (· + 64), (List.range 64).map (· + 128)]
          (initBuffer ⟨fun _ => true, fun _ _ => 0⟩ 64).1
          (initBuffer ⟨fun _ => true, fun _ _ => 0⟩ 64).2).2.2.2
        ⟨100, fun _ => false⟩ (some 0)).1.writes.map List.length = [100, 92] ∧
      (writeTo ⟨fun _ => true, fun _ _ => 0⟩
        (runFill ⟨fun _ => true, fun _ _ => 0⟩
          [List.range 64, (List.range 64).map (· + 64), (List.range 64).map (· + 128)]
          (initBuffer ⟨fun _ => true, fun _ _ => 0⟩ 64).1
          (initBuffer ⟨fun _ => true, fun _ _ => 0⟩ 64).2).2.2.1
        (runFill ⟨fun _ => true, fun _ _ => 0⟩
          [List.range 64, (List.range 64).map (· + 64), (List.range 64).map (· + 128)]
          (initBuffer ⟨fun _ => true, fun _ _ => 0⟩ 64).1
          (initBuffer ⟨fun _ => true, fun _ _ => 0⟩ 64).2).2.2.2
        ⟨100, fun _ => false⟩ (some 0)).1.writes.flatten.length = 192 ∧
      (writeTo ⟨fun _ => true, fun _ _ => 0⟩
        (runFill ⟨fun _ => true, fun _ _ => 0⟩
          [List.range 64, (List.range 64).map (· + 64), (List.range 64).map (· + 128)]
          (initBuffer ⟨fun _ => true, fun _ _ => 0⟩ 64).1
          (initBuffer ⟨fun _ => true, fun _ _ => 0⟩ 64).2).2.2.1
        (runFill ⟨fun _ => true, fun _ _ => 0⟩
          [List.range 64, (List.range 64).map (· + 64), (List.range 64).map (· + 128)]
          (initBuffer ⟨fun _ => true, fun _ _ => 0⟩ 64).1
          (initBuffer ⟨fun _ => true, fun _ _ => 0⟩ 64).2).2.2.2
        ⟨100, fun _ => false⟩ (some 0)).1.metricsAfter = some 2) := by
  have h := C7_write_chunking ⟨fun _ => true, fun _ _ => 0⟩
    (runFill ⟨fun _ => true, fun _ _ => 0⟩
      [List.range 64, (List.range 64).map (· + 64), (List.range 64).map (· + 128)]
      (initBuffer ⟨fun _ => true, fun _ _ => 0⟩ 64).1
      (initBuffer ⟨fun _ => true, fun _ _ => 0⟩ 64).2).2.2.1
    (runFill ⟨fun _ => true, fun _ _ => 0⟩
      [List.range 64, (List.range 64).map (· + 64), (List.range 64).map (· + 128)]
      (initBuffer ⟨fun _ => true, fun _ _ => 0⟩ 64).1
      (initBuffer ⟨fun _ => true, fun _ _ => 0⟩ 64).2).2.2.2
    ⟨100, fun _ => false⟩ (some 0) (by decide) (by decide) (fun _ => rfl) rfl (by decide)
  exact ⟨by decide, h.1, by decide, by decide, by decide, by decide⟩

end Orc
